import Mathlib

/-!
Verification of the `spectator` cognitive runtime against its design
specification.

The Python sources are embedded shallowly: text is `List Char` (named
`Str`), JSON documents are an inductive `Json`, and each Python function
that the claims mention is translated into a computable Lean function of
the same name (leading underscores dropped).  File, clock and LLM I/O is
factored out: functions receive their inputs as values and return their
outputs, exactly as the Python bodies compute them.
-/

set_option maxRecDepth 10000

namespace Spectator

/-- Text: Python `str` as a list of characters. -/
abbrev Str := List Char

/-- Coerce a Lean string literal to the text model. -/
def litS (s : String) : Str := s.data

/-- Index of the first occurrence of `pat` in the text, Python `text.find(pat)`.
`none` when absent (Python returns `-1`). -/
def findSub (pat : Str) : Str → Option Nat
  | [] => if pat.isPrefixOf ([] : Str) then some 0 else none
  | c :: rest =>
    if pat.isPrefixOf (c :: rest) then some 0
    else match findSub pat rest with
      | some i => some (i + 1)
      | none => none

/-- Python `text.find(pat, start)`. -/
def findSubFrom (pat : Str) (text : Str) (start : Nat) : Option Nat :=
  (findSub pat (text.drop start)).map (· + start)

/-- Python `pat in text` for strings. -/
def containsSub (text pat : Str) : Bool :=
  (findSub pat text).isSome

/-- Index of the last occurrence of `pat`, Python `text.rfind(pat)`. -/
def rfindSub (pat : Str) (text : Str) : Option Nat :=
  ((List.range (text.length + 1)).filter
    (fun i => pat.isPrefixOf (text.drop i))).getLast?

/-- Python slice `text[a:b]` for `0 ≤ a ≤ b`. -/
def sliceStr (text : Str) (a b : Nat) : Str :=
  (text.take b).drop a

/-- Worker for `replaceAll`; the pattern `p :: ps` is non-empty, and a fuel
of `s.length + 1` always suffices since every step consumes a character. -/
def replaceAllAux (p : Char) (ps repl : Str) : Nat → Str → Str
  | 0, s => s
  | _, [] => []
  | fuel + 1, c :: rest =>
    if (p :: ps).isPrefixOf (c :: rest)
    then repl ++ replaceAllAux p ps repl fuel (rest.drop ps.length)
    else c :: replaceAllAux p ps repl fuel rest

/-- Python `text.replace(pat, repl)`: scan left to right, never rescanning
the inserted replacement.  (The runtime never calls it with an empty
pattern.) -/
def replaceAll (pat repl s : Str) : Str :=
  match pat with
  | [] => s
  | p :: ps => replaceAllAux p ps repl (s.length + 1) s

/-- The characters Python `str.strip()` removes. -/
def isPyWS (c : Char) : Bool :=
  c = ' ' ∨ c = '\t' ∨ c = '\n' ∨ c = '\r' ∨ c = '\x0b' ∨ c = '\x0c'

/-- Python `text.lstrip()`. -/
def lstripStr (s : Str) : Str := s.dropWhile isPyWS

/-- Python `text.rstrip()`. -/
def rstripStr (s : Str) : Str := (s.reverse.dropWhile isPyWS).reverse

/-- Python `text.strip()`. -/
def stripStr (s : Str) : Str := rstripStr (lstripStr s)

/-- Python `text.startswith(pat)`. -/
def startsWithStr (s pat : Str) : Bool := pat.isPrefixOf s

/-- Python `text.endswith(pat)`. -/
def endsWithStr (s pat : Str) : Bool := pat.reverse.isPrefixOf s.reverse

/-- Python `text.lower()` (ASCII, which is all the runtime feeds it). -/
def lowerStr (s : Str) : Str := s.map Char.toLower

/-- Python `sep.join(parts)`. -/
def joinStr (sep : Str) : List Str → Str
  | [] => []
  | [x] => x
  | x :: y :: rest => x ++ sep ++ joinStr sep (y :: rest)

/-- Worker for `natToStr` (fuel `n + 1` always suffices). -/
def natToStrAux : Nat → Nat → Str
  | 0, _ => []
  | fuel + 1, n =>
    if n < 10 then [Char.ofNat (48 + n)]
    else natToStrAux fuel (n / 10) ++ [Char.ofNat (48 + n % 10)]

/-- Decimal digits of a natural number. -/
def natToStr (n : Nat) : Str := natToStrAux (n + 1) n

/-- Decimal rendering of an integer. -/
def intToStr (i : Int) : Str :=
  if i < 0 then '-' :: natToStr (-i).toNat else natToStr i.toNat

/-! ## JSON documents

The runtime exchanges JSON via Python's `json` module.  The documents the
marker protocols carry are objects, arrays, strings, integers, booleans
and nulls; `Json` models exactly those (the runtime never emits float
literals into the protocols the claims are about). -/

inductive Json where
  | jnull : Json
  | jbool (b : Bool) : Json
  | jnum (n : Int) : Json
  | jstr (s : Str) : Json
  | jarr (xs : List Json) : Json
  | jobj (fields : List (Str × Json)) : Json

/-- Python `dict.get(key)` on an object built from `fields` in order:
later duplicate keys override earlier ones. -/
def dictGet (fields : List (Str × Json)) (key : Str) : Option Json :=
  (fields.reverse.find? (fun kv => kv.1 = key)).map (·.2)

/-- Python `key in dict`. -/
def dictHasKey (fields : List (Str × Json)) (key : Str) : Bool :=
  fields.any (fun kv => kv.1 = key)

/-- JSON whitespace accepted by `json.loads`. -/
def isJsonWS (c : Char) : Bool :=
  c = ' ' ∨ c = '\t' ∨ c = '\n' ∨ c = '\r'

def skipWs (s : Str) : Str := s.dropWhile isJsonWS

def isDigitC (c : Char) : Bool := '0' ≤ c ∧ c ≤ '9'

def digitVal (c : Char) : Nat := c.toNat - 48

def hexVal (c : Char) : Option Nat :=
  if '0' ≤ c ∧ c ≤ '9' then some (c.toNat - 48)
  else if 'a' ≤ c ∧ c ≤ 'f' then some (c.toNat - 87)
  else if 'A' ≤ c ∧ c ≤ 'F' then some (c.toNat - 55)
  else none

/-- Worker for `parseJStr`; fuel bounds the recursion and
`input.length + 1` is always enough, each step consuming a character. -/
def parseJStrAux : Nat → Str → Option (Str × Str)
  | 0, _ => none
  | _, [] => none
  | fuel + 1, c :: rest =>
    if c = '"' then some ([], rest)
    else if c = '\\' then
      match rest with
      | [] => none
      | e :: rest2 =>
        let dec : Option (Char × Str) :=
          if e = '"' then some ('"', rest2)
          else if e = '\\' then some ('\\', rest2)
          else if e = '/' then some ('/', rest2)
          else if e = 'b' then some ('\x08', rest2)
          else if e = 'f' then some ('\x0c', rest2)
          else if e = 'n' then some ('\n', rest2)
          else if e = 'r' then some ('\r', rest2)
          else if e = 't' then some ('\t', rest2)
          else if e = 'u' then
            match rest2 with
            | h1 :: h2 :: h3 :: h4 :: rest3 =>
              match hexVal h1, hexVal h2, hexVal h3, hexVal h4 with
              | some a, some b, some c', some d =>
                some (Char.ofNat (((a * 16 + b) * 16 + c') * 16 + d), rest3)
              | _, _, _, _ => none
            | _ => none
          else none
        match dec with
        | some (ch, rest') =>
          match parseJStrAux fuel rest' with
          | some (tail, rem) => some (ch :: tail, rem)
          | none => none
        | none => none
    else if c.toNat < 32 then none
    else
      match parseJStrAux fuel rest with
      | some (tail, rem) => some (c :: tail, rem)
      | none => none

/-- Parse the body of a JSON string (opening quote already consumed).
Returns the decoded text and the remainder after the closing quote. -/
def parseJStr (s : Str) : Option (Str × Str) :=
  parseJStrAux (s.length + 1) s

/-- Parse a run of decimal digits. -/
def parseDigits : Str → Nat → Option (Nat × Str)
  | [], acc => some (acc, [])
  | c :: rest, acc =>
    if isDigitC c then parseDigits rest (acc * 10 + digitVal c)
    else some (acc, c :: rest)

mutual
/-- One JSON value, fuel-bounded recursive descent mirroring `json.loads`
on the integer-only subset.  Leading whitespace is skipped. -/
def parseJVal : Nat → Str → Option (Json × Str)
  | 0, _ => none
  | fuel + 1, s =>
    let s := skipWs s
    match s with
    | [] => none
    | c :: rest =>
      if c = 'n' then
        if (litS "ull").isPrefixOf rest then some (.jnull, rest.drop 3) else none
      else if c = 't' then
        if (litS "rue").isPrefixOf rest then some (.jbool true, rest.drop 3) else none
      else if c = 'f' then
        if (litS "alse").isPrefixOf rest then some (.jbool false, rest.drop 4) else none
      else if c = '"' then
        match parseJStr rest with
        | some (str, rem) => some (.jstr str, rem)
        | none => none
      else if c = '-' then
        match rest with
        | d :: rest2 =>
          if isDigitC d then
            match parseDigits rest2 (digitVal d) with
            | some (n, rem) => some (.jnum (-(n : Int)), rem)
            | none => none
          else none
        | [] => none
      else if isDigitC c then
        match parseDigits rest (digitVal c) with
        | some (n, rem) => some (.jnum (n : Int), rem)
        | none => none
      else if c = '[' then
        let rest' := skipWs rest
        match rest' with
        | ']' :: rem => some (.jarr [], rem)
        | _ => parseJArr fuel rest' []
      else if c = '\x7b' then
        let rest' := skipWs rest
        match rest' with
        | '\x7d' :: rem => some (.jobj [], rem)
        | _ => parseJObj fuel rest' []
      else none

/-- Elements of a JSON array after `[` (at least one element pending). -/
def parseJArr : Nat → Str → List Json → Option (Json × Str)
  | 0, _, _ => none
  | fuel + 1, s, acc =>
    match parseJVal fuel s with
    | none => none
    | some (v, rem) =>
      match skipWs rem with
      | ',' :: rem2 => parseJArr fuel rem2 (acc ++ [v])
      | ']' :: rem2 => some (.jarr (acc ++ [v]), rem2)
      | _ => none

/-- Members of a JSON object after the opening brace (at least one pending). -/
def parseJObj : Nat → Str → List (Str × Json) → Option (Json × Str)
  | 0, _, _ => none
  | fuel + 1, s, acc =>
    match skipWs s with
    | '"' :: rest =>
      match parseJStr rest with
      | none => none
      | some (key, rem) =>
        match skipWs rem with
        | ':' :: rem2 =>
          match parseJVal fuel rem2 with
          | none => none
          | some (v, rem3) =>
            match skipWs rem3 with
            | ',' :: rem4 => parseJObj fuel rem4 (acc ++ [(key, v)])
            | '\x7d' :: rem4 => some (.jobj (acc ++ [(key, v)]), rem4)
            | _ => none
        | _ => none
    | _ => none
end

/-- Model of Python `json.loads` (over the subset `Json` covers): parse one
value, demand only whitespace afterwards.  `none` models `JSONDecodeError`. -/
def jsonLoads (s : Str) : Option Json :=
  match parseJVal (s.length + 1) s with
  | some (v, rem) => if skipWs rem = [] then some v else none
  | none => none

/-- Escaping of one character by `json.dumps(..., ensure_ascii=False)`. -/
def escChar (c : Char) : Str :=
  if c = '"' then ['\\', '"']
  else if c = '\\' then ['\\', '\\']
  else if c = '\n' then ['\\', 'n']
  else if c = '\r' then ['\\', 'r']
  else if c = '\t' then ['\\', 't']
  else if c = '\x08' then ['\\', 'b']
  else if c = '\x0c' then ['\\', 'f']
  else if c.toNat < 32 then
    ['\\', 'u', '0', '0',
      Char.ofNat (if c.toNat / 16 < 10 then 48 + c.toNat / 16 else 87 + c.toNat / 16),
      Char.ofNat (if c.toNat % 16 < 10 then 48 + c.toNat % 16 else 87 + c.toNat % 16)]
  else [c]

/-- `json.dumps` rendering of a string, quotes included. -/
def dumpJStr (s : Str) : Str :=
  '"' :: s.foldr (fun c acc => escChar c ++ acc) ['"']

mutual
/-- Model of Python `json.dumps(value, ensure_ascii=False)` with the default
separators `", "` and `": "` (the form `_format_tool_results` uses). -/
def jsonDump : Json → Str
  | .jnull => litS "null"
  | .jbool true => litS "true"
  | .jbool false => litS "false"
  | .jnum n => intToStr n
  | .jstr s => dumpJStr s
  | .jarr xs => '[' :: jsonDumpArr xs ++ [']']
  | .jobj fields => '\x7b' :: jsonDumpObj fields ++ ['\x7d']

def jsonDumpArr : List Json → Str
  | [] => []
  | [x] => jsonDump x
  | x :: y :: rest => jsonDump x ++ litS ", " ++ jsonDumpArr (y :: rest)

def jsonDumpObj : List (Str × Json) → Str
  | [] => []
  | [kv] => dumpJStr kv.1 ++ litS ": " ++ jsonDump kv.2
  | kv :: kv2 :: rest =>
    dumpJStr kv.1 ++ litS ": " ++ jsonDump kv.2 ++ litS ", " ++ jsonDumpObj (kv2 :: rest)
end

/-! ## `spectator/runtime/notes.py` -/

def notesStartMarker : Str := litS "<<<NOTES_JSON>>>"
def notesEndMarker : Str := litS "<<<END_NOTES_JSON>>>"

/-- `NotesPatch` dataclass. -/
structure NotesPatch where
  set_goals : List Str := []
  add_open_loops : List Str := []
  close_open_loops : List Str := []
  add_decisions : List Str := []
  add_constraints : List Str := []
  set_episode_summary : Option Str := none
  add_memory_tags : List Str := []
  actions : List Str := []
deriving DecidableEq

/-- Helper: `all(isinstance(item, str) for item in value)` turning a JSON
array into strings, failing on any non-string element. -/
def strsOfJ : List Json → Option (List Str)
  | [] => some []
  | .jstr s :: rest =>
    match strsOfJ rest with
    | some tail => some (s :: tail)
    | none => none
  | _ :: _ => none

/-- `notes._ensure_list` on a fetched field: an absent field or JSON `null`
reads back as Python `None`, which yields `[]`; a list of strings passes;
anything else is a mismatch. -/
def ensureListJ : Option Json → Option (List Str)
  | none => some []
  | some .jnull => some []
  | some (.jarr xs) => strsOfJ xs
  | some _ => none

/-- `notes._ensure_str`: absent, `null` and non-string values all collapse
to Python `None`; only a string survives. -/
def ensureStrJ : Option Json → Option Str
  | some (.jstr s) => some s
  | _ => none

/-- `_extract_block` shared by `notes.py` and `tool_calls.py`: locate the
marker pair, return the stripped payload plus the span `[si, ei)` the
block occupies in the text. -/
def extractBlock (startM endM : Str) (text : Str) : Option (Str × Nat × Nat) :=
  match findSub startM text with
  | none => none
  | some si =>
    match findSubFrom endM text si with
    | none => none
    | some ei =>
      some (stripStr (sliceStr text (si + startM.length) ei), si, ei + endM.length)

/-- `notes._coerce_patch`: every known list field must coerce; a mistyped
`set_episode_summary` merely collapses to `None` (it is not in the
rejection tuple). -/
def coercePatch (data : List (Str × Json)) : Option NotesPatch :=
  match ensureListJ (dictGet data (litS "set_goals")),
        ensureListJ (dictGet data (litS "add_open_loops")),
        ensureListJ (dictGet data (litS "close_open_loops")),
        ensureListJ (dictGet data (litS "add_decisions")),
        ensureListJ (dictGet data (litS "add_constraints")),
        ensureListJ (dictGet data (litS "add_memory_tags")),
        ensureListJ (dictGet data (litS "actions")) with
  | some sg, some aol, some col, some ad, some ac, some amt, some acts =>
    some { set_goals := sg, add_open_loops := aol, close_open_loops := col,
           add_decisions := ad, add_constraints := ac,
           set_episode_summary := ensureStrJ (dictGet data (litS "set_episode_summary")),
           add_memory_tags := amt, actions := acts }
  | _, _, _, _, _, _, _ => none

/-- `notes.extract_notes`. -/
def extract_notes (text : Str) : Str × Option NotesPatch :=
  match extractBlock notesStartMarker notesEndMarker text with
  | none => (text, none)
  | some (payload, si, ei) =>
    match jsonLoads payload with
    | none => (text, none)
    | some (.jobj data) =>
      match coercePatch data with
      | none => (text, none)
      | some patch => (text.take si ++ text.drop ei, some patch)
    | some _ => (text, none)

/-! ## `spectator/runtime/tool_calls.py` -/

def toolsStartMarker : Str := litS "<<<TOOL_CALLS_JSON>>>"
def toolsEndMarker : Str := litS "<<<END_TOOL_CALLS_JSON>>>"

def defaultAllowedToolNamespaces : List Str := [litS "fs.", litS "shell.", litS "http."]

/-- `ToolCall` dataclass: `args` is the parsed JSON object. -/
structure ToolCall where
  id : Str
  tool : Str
  args : List (Str × Json)

/-- `tool_calls._is_allowed_tool` with `allowed_tools` as an optional set. -/
def isAllowedTool (name : Str) (allowedTools : Option (List Str))
    (allowedNamespaces : List Str) : Bool :=
  match allowedTools with
  | some ts =>
    if ¬ ts.isEmpty ∧ ts.contains name then true
    else allowedNamespaces.any (fun p => p.isPrefixOf name)
  | none => allowedNamespaces.any (fun p => p.isPrefixOf name)

/-- Item loop of `_coerce_tool_calls`: each entry must carry a string `id`,
a string `tool` and a dict `args`, otherwise the whole parse fails. -/
def coerceToolCallItems : List Json → Option (List ToolCall)
  | [] => some []
  | .jobj item :: rest =>
    match dictGet item (litS "id"), dictGet item (litS "tool"),
          dictGet item (litS "args") with
    | some (.jstr cid), some (.jstr tool), some (.jobj args) =>
      match coerceToolCallItems rest with
      | some tail => some ({ id := cid, tool := tool, args := args } :: tail)
      | none => none
    | _, _, _ => none
  | _ :: _ => none

/-- `tool_calls._coerce_tool_calls` (canonical block): a dict is wrapped in
a list; every entry must be a dict carrying string `id`, string `tool`
and a dict `args`, otherwise the whole parse is rejected. -/
def coerceToolCalls (data : Json) : Option (List ToolCall) :=
  match data with
  | .jobj fields => coerceToolCallItems [.jobj fields]
  | .jarr items => if items.all (fun i => match i with | .jobj _ => true | _ => false)
                   then coerceToolCallItems items else none
  | _ => none

/-- `tool_calls._parse_args`: a dict passes; a string is re-parsed as JSON
and must decode to a dict; everything else (including `null`) fails. -/
def parseArgs (value : Json) : Option (List (Str × Json)) :=
  match value with
  | .jobj fields => some fields
  | .jstr s =>
    match jsonLoads s with
    | some (.jobj fields) => some fields
    | _ => none
  | _ => none

/-- One step of the `_coerce_loose_tool_calls` item loop; returns the calls
accumulated so far together with the auto-id counter. -/
def coerceLooseItems (allowedTools : Option (List Str)) (allowedNamespaces : List Str) :
    List Json → Nat → List ToolCall
  | [], _ => []
  | item :: rest, autoIndex =>
    match item with
    | .jobj fields =>
      let toolValue : Option Str :=
        match dictGet fields (litS "tool") with
        | some (.jstr t) => some t
        | _ =>
          match dictGet fields (litS "name") with
          | some (.jstr t) => some t
          | _ => none
      match toolValue with
      | none => coerceLooseItems allowedTools allowedNamespaces rest autoIndex
      | some tool =>
        let rawArgs : Option Json :=
          if dictHasKey fields (litS "args") then dictGet fields (litS "args")
          else if dictHasKey fields (litS "arguments") then dictGet fields (litS "arguments")
          else none
        match rawArgs with
        | none => coerceLooseItems allowedTools allowedNamespaces rest autoIndex
        | some raw =>
          if ¬ isAllowedTool tool allowedTools allowedNamespaces then
            coerceLooseItems allowedTools allowedNamespaces rest autoIndex
          else
            match parseArgs raw with
            | none => coerceLooseItems allowedTools allowedNamespaces rest autoIndex
            | some args =>
              match dictGet fields (litS "id") with
              | some (.jstr cid) =>
                { id := cid, tool := tool, args := args } ::
                  coerceLooseItems allowedTools allowedNamespaces rest autoIndex
              | _ =>
                { id := litS "auto-" ++ natToStr autoIndex, tool := tool, args := args } ::
                  coerceLooseItems allowedTools allowedNamespaces rest (autoIndex + 1)
    | _ => coerceLooseItems allowedTools allowedNamespaces rest autoIndex

/-- `tool_calls._coerce_loose_tool_calls` (trace emission elided; it never
affects the returned calls). -/
def coerceLooseToolCalls (data : Json) (allowedTools : Option (List Str))
    (allowedNamespaces : List Str) : List ToolCall :=
  match data with
  | .jobj fields => coerceLooseItems allowedTools allowedNamespaces [.jobj fields] 1
  | .jarr items =>
    if items.all (fun i => match i with | .jobj _ => true | _ => false)
    then coerceLooseItems allowedTools allowedNamespaces items 1
    else []
  | _ => []

/-- `tool_calls.extract_tool_calls` with the default allowlist predicate. -/
def extract_tool_calls (text : Str) (allowedTools : Option (List Str) := none)
    (allowedNamespaces : List Str := defaultAllowedToolNamespaces) :
    Str × List ToolCall :=
  match extractBlock toolsStartMarker toolsEndMarker text with
  | none =>
    let stripped := stripStr text
    match stripped with
    | [] => (text, [])
    | c :: _ =>
      if ¬ (c = '[' ∨ c = '\x7b') then (text, [])
      else
        match jsonLoads stripped with
        | none => (text, [])
        | some data =>
          match coerceLooseToolCalls data allowedTools allowedNamespaces with
          | [] => (text, [])
          | call :: calls => ([], call :: calls)
  | some (payload, si, ei) =>
    match jsonLoads payload with
    | none => (text, [])
    | some data =>
      match coerceToolCalls data with
      | none => (text, [])
      | some calls =>
        (text.take si ++ text.drop ei,
         calls.filter (fun call => isAllowedTool call.tool allowedTools allowedNamespaces))

/-! ## `spectator/runtime/sanitize.py`

The regex patterns of `sanitize.py` are alternations of literal
start/end markers with a non-greedy `.*?` (DOTALL) middle.  `re.sub` on
such a pattern removes, scanning left to right, every span that starts
with a start literal and ends at the first matching end literal, and
resumes after the removed span; the scanners below implement exactly
that. -/

def retrievedStart : Str := litS "=== RETRIEVED_MEMORY ==="
def retrievedEnd : Str := litS "=== END_RETRIEVED_MEMORY ==="
def retrievalStart : Str := litS "=== RETRIEVAL ==="
def retrievalEnd : Str := litS "=== END RETRIEVAL ==="

/-- Try the alternatives in order at the current position: an alternative
`(a, b)` matches when `a` starts here and `b` occurs later; the result is
the length of the (non-greedy) matched span. -/
def tryAltsLen (alts : List (Str × Str)) (s : Str) : Option Nat :=
  match alts with
  | [] => none
  | (a, b) :: rest =>
    if a.isPrefixOf s then
      match findSub b (s.drop a.length) with
      | some r => some (a.length + r + b.length)
      | none => tryAltsLen rest s
    else tryAltsLen rest s

/-- `re.sub(pattern, "", s)` for an alternation of literal-delimited
non-greedy blocks. -/
def scanSub (alts : List (Str × Str)) : Nat → Str → Str
  | 0, s => s
  | _, [] => []
  | fuel + 1, c :: rest =>
    match tryAltsLen alts (c :: rest) with
    | some len => scanSub alts fuel ((c :: rest).drop len)
    | none => c :: scanSub alts fuel rest

/-- `re.search` for one literal-delimited block: a match exists iff the
first occurrence of the start literal has the end literal after it. -/
def hasBlock (a b : Str) (s : Str) : Bool :=
  match findSub a s with
  | some i => (findSub b (s.drop (i + a.length))).isSome
  | none => false

/-- `_REASONING_PATTERNS` applied in order, each with `re.sub`. -/
def stripReasoningWrappers (text : Str) : Str :=
  let s1 := scanSub [(litS "<think>", litS "</think>")] (text.length + 1) text
  let s2 := scanSub [(litS "<<<THOUGHTS>>>", litS "<<<END_THOUGHTS>>>")] (s1.length + 1) s1
  scanSub [(litS "=== REASONING ===", litS "=== END REASONING ===")] (s2.length + 1) s2

/-- `_SCAFFOLD_HEADERS` in dict (insertion) order. -/
def scaffoldHeaders : List (Str × Str) :=
  [(litS "HISTORY:", litS "HISTORY"),
   (litS "HISTORY_JSON:", litS "HISTORY"),
   (litS "STATE:", litS "STATE"),
   (litS "UPSTREAM:", litS "UPSTREAM"),
   (litS "USER:", litS "USER"),
   (litS "TOOL_RESULTS:", litS "TOOL_RESULTS"),
   (litS "reflection:", litS "ROLE_TRANSCRIPT"),
   (litS "planner:", litS "ROLE_TRANSCRIPT"),
   (litS "critic:", litS "ROLE_TRANSCRIPT"),
   (litS "assistant:", litS "ROLE_TRANSCRIPT")]

/-- Record a removal label, first occurrence only (`if label not in removed`). -/
def appendLabel (removed : List Str) (label : Str) : List Str :=
  if label ∈ removed then removed else removed ++ [label]

/-- `_strip_leading_scaffolding`, fuel-bounded (`text.length + 1` always
suffices: every loop iteration consumes at least one character). -/
def stripLeadingScaffoldingAux : Nat → Str → List Str → Str × List Str
  | 0, working, removed => (working, removed)
  | fuel + 1, working, removed =>
    let stripped := lstripStr working
    if stripped = [] then ([], removed)
    else if startsWithStr stripped retrievedStart ∨ startsWithStr stripped retrievalStart then
      let em := if startsWithStr stripped retrievalStart then retrievalEnd else retrievedEnd
      let cutIndex := match findSub em stripped with
        | some e => e + em.length
        | none => stripped.length
      stripLeadingScaffoldingAux fuel (stripped.drop cutIndex)
        (appendLabel removed (litS "RETRIEVED_MEMORY"))
    else
      match scaffoldHeaders.find? (fun hl => startsWithStr stripped hl.1) with
      | some hl =>
        let workingNext := match findSub (litS "\n\n") stripped with
          | some be => stripped.drop (be + 2)
          | none => []
        stripLeadingScaffoldingAux fuel workingNext (appendLabel removed hl.2)
      | none => (working, removed)

def stripLeadingScaffolding (text : Str) : Str × List Str :=
  stripLeadingScaffoldingAux (text.length + 1) text []

/-- `_strip_trailing_scaffolding`, fuel-bounded likewise. -/
def stripTrailingScaffoldingAux : Nat → Str → List Str → Str × List Str
  | 0, working, removed => (working, removed)
  | fuel + 1, working, removed =>
    let stripped := rstripStr working
    if stripped = [] then ([], removed)
    else
      let retrCut : Option Nat :=
        if endsWithStr stripped retrievedEnd ∨ endsWithStr stripped retrievalEnd then
          let sm := if endsWithStr stripped retrievalEnd then retrievalStart else retrievedStart
          rfindSub sm stripped
        else none
      match retrCut with
      | some si =>
        stripTrailingScaffoldingAux fuel (stripped.take si)
          (appendLabel removed (litS "RETRIEVED_MEMORY"))
      | none =>
        let (lastBlock, prefixPart) := match rfindSub (litS "\n\n") stripped with
          | some lb => (stripped.drop (lb + 2), stripped.take lb)
          | none => (stripped, [])
        match scaffoldHeaders.find? (fun hl => startsWithStr (lstripStr lastBlock) hl.1) with
        | some hl => stripTrailingScaffoldingAux fuel prefixPart (appendLabel removed hl.2)
        | none => (working, removed)

def stripTrailingScaffolding (text : Str) : Str × List Str :=
  stripTrailingScaffoldingAux (text.length + 1) text []

/-- `_strip_dangling_markers`: remove the four marker literals one after
the other with `str.replace`. -/
def stripDanglingMarkers (text : Str) : Str × Bool :=
  [toolsStartMarker, toolsEndMarker, notesStartMarker, notesEndMarker].foldl
    (fun sf m => if containsSub sf.1 m then (replaceAll m [] sf.1, true) else sf)
    (text, false)

/-- `_strip_retrieval_blocks`: `_RETRIEVAL_BLOCK_PATTERN` is the RETRIEVED
alternative first, then RETRIEVAL. -/
def stripRetrievalBlocks (text : Str) : Str × Bool :=
  if hasBlock retrievedStart retrievedEnd text ∨ hasBlock retrievalStart retrievalEnd text then
    (scanSub [(retrievedStart, retrievedEnd), (retrievalStart, retrievalEnd)]
      (text.length + 1) text, true)
  else (text, false)

/-- `_strip_tool_notes_blocks`. -/
def stripToolNotesBlocks (text : Str) : Str × List Str :=
  let r1 := if hasBlock toolsStartMarker toolsEndMarker text
    then (scanSub [(toolsStartMarker, toolsEndMarker)] (text.length + 1) text,
          [litS "TOOL_BLOCK_STRIPPED"])
    else (text, [])
  let r2 := if hasBlock notesStartMarker notesEndMarker r1.1
    then (scanSub [(notesStartMarker, notesEndMarker)] (r1.1.length + 1) r1.1,
          r1.2 ++ [litS "NOTES_BLOCK_STRIPPED"])
    else r1
  let r3 := stripDanglingMarkers r2.1
  (r3.1, if r3.2 then r2.2 ++ [litS "MARKER_POLLUTION"] else r2.2)

/-- `_PROTECTED_PATTERN.finditer` pass: replace every matched notes/tools
block by the placeholder `<<<SPECTATOR_BLOCK_i>>>`, returning the
protected text and the placeholder→original association in order. -/
def protectScan : Nat → Nat → Str → Str × List (Str × Str)
  | 0, _, s => (s, [])
  | _, _, [] => ([], [])
  | fuel + 1, idx, c :: rest =>
    match tryAltsLen [(notesStartMarker, notesEndMarker),
                      (toolsStartMarker, toolsEndMarker)] (c :: rest) with
    | some len =>
      let ph := litS "<<<SPECTATOR_BLOCK_" ++ natToStr idx ++ litS ">>>"
      let original := (c :: rest).take len
      let r := protectScan fuel (idx + 1) ((c :: rest).drop len)
      (ph ++ r.1, (ph, original) :: r.2)
    | none =>
      let r := protectScan fuel idx rest
      (c :: r.1, r.2)

/-- `sanitize.sanitize_visible_text_with_report`. -/
def sanitize_visible_text_with_report (text : Str) : Str × List Str × Bool :=
  if text = [] then (text, [], false)
  else
    let pr := protectScan (text.length + 1) 0 text
    let s0 := stripReasoningWrappers pr.1
    let lead := stripLeadingScaffolding s0
    let trail := stripTrailingScaffolding lead.1
    let retr := stripRetrievalBlocks trail.1
    let dang := stripDanglingMarkers retr.1
    let restored := pr.2.foldl (fun acc ph => replaceAll ph.1 ph.2 acc) dang.1
    let blocks := stripToolNotesBlocks restored
    let removed0 := (lead.2 ++ trail.2).foldl appendLabel []
    let removed1 := if retr.2 ∧ ¬ (litS "RETRIEVED_MEMORY") ∈ removed0
      then removed0 ++ [litS "RETRIEVED_MEMORY"] else removed0
    let removed2 := if dang.2 ∧ ¬ (litS "MARKER_POLLUTION") ∈ removed1
      then removed1 ++ [litS "MARKER_POLLUTION"] else removed1
    let removed3 := blocks.2.foldl appendLabel removed2
    if stripStr blocks.1 = [] then (litS "...", removed3, true)
    else (blocks.1, removed3, false)

/-! ## `spectator/core/types.py` -/

/-- `State` dataclass. -/
structure State where
  goals : List Str := []
  open_loops : List Str := []
  decisions : List Str := []
  constraints : List Str := []
  episode_summary : Str := []
  memory_tags : List Str := []
  memory_refs : List Str := []
  capabilities_granted : List Str := []
  capabilities_pending : List Str := []
deriving DecidableEq

/-- `ChatMessage` dataclass. -/
structure ChatMessage where
  role : Str
  content : Str
deriving DecidableEq

/-! ## `spectator/runtime/condense.py` -/

def truncationMarker : Str := litS "...[truncated]"

/-- `CondensePolicy` dataclass (defaults 32 / 1500 / 4000). -/
structure CondensePolicy where
  max_goals : Int := 32
  max_open_loops : Int := 32
  max_decisions : Int := 32
  max_constraints : Int := 32
  max_memory_tags : Int := 32
  max_upstream_chars_per_role : Int := 1500
  max_upstream_total_chars : Int := 4000

/-- `CondenseReport` dataclass. -/
structure CondenseReport where
  goals_removed : Nat := 0
  open_loops_removed : Nat := 0
  decisions_removed : Nat := 0
  constraints_removed : Nat := 0
  memory_tags_removed : Nat := 0

/-- `CondenseReport.trimmed`. -/
def CondenseReport.trimmed (r : CondenseReport) : Bool :=
  r.goals_removed ≠ 0 ∨ r.open_loops_removed ≠ 0 ∨ r.decisions_removed ≠ 0 ∨
    r.constraints_removed ≠ 0 ∨ r.memory_tags_removed ≠ 0

/-- `condense.dedupe_preserve_order`: the Python `seen` set always holds
exactly the elements already appended, so membership in the accumulator
is the same test. -/
def dedupe_preserve_order (items : List Str) : List Str :=
  items.foldl (fun acc item => if item ∈ acc then acc else acc ++ [item]) []

/-- `condense.cap_tail`. -/
def cap_tail (items : List Str) (max_n : Int) : List Str :=
  if max_n < 0 then []
  else if (items.length : Int) ≤ max_n then items
  else if max_n = 0 then []
  else items.drop (items.length - max_n.toNat)

/-- `condense.truncate_text`. -/
def truncate_text (text : Str) (max_chars : Int) : Str :=
  if max_chars ≤ 0 then []
  else if (text.length : Int) ≤ max_chars then text
  else if max_chars < (truncationMarker.length : Int) then truncationMarker.take max_chars.toNat
  else text.take (max_chars.toNat - truncationMarker.length) ++ truncationMarker

/-- `condense._condense_list`. -/
def condenseList (items : List Str) (max_items : Int) : List Str :=
  cap_tail (dedupe_preserve_order items) max_items

/-- `condense.condense_state`, returning the new state together with the
report (the Python version mutates `state` in place). -/
def condense_state (state : State) (policy : CondensePolicy) : State × CondenseReport :=
  let goals := condenseList state.goals policy.max_goals
  let openLoops := condenseList state.open_loops policy.max_open_loops
  let decisions := condenseList state.decisions policy.max_decisions
  let constraints := condenseList state.constraints policy.max_constraints
  let memoryTags := condenseList state.memory_tags policy.max_memory_tags
  ({ state with goals := goals, open_loops := openLoops, decisions := decisions,
                constraints := constraints, memory_tags := memoryTags },
   { goals_removed := state.goals.length - goals.length,
     open_loops_removed := state.open_loops.length - openLoops.length,
     decisions_removed := state.decisions.length - decisions.length,
     constraints_removed := state.constraints.length - constraints.length,
     memory_tags_removed := state.memory_tags.length - memoryTags.length })

/-! ## `spectator/runtime/capabilities.py`

Each operation returns the new state plus the Python return value. -/

def requestPrefixStr : Str := litS "request_permission:"
def grantPrefixStr : Str := litS "grant_permission:"

/-- `capabilities._remove_value`. -/
def removeValue (items : List Str) (value : Str) : List Str :=
  items.filter (fun item => item ≠ value)

/-- `capabilities.normalize_capabilities`. -/
def normalize_capabilities (state : State) : State :=
  if state.capabilities_granted = [] then state
  else { state with capabilities_pending :=
          (state.capabilities_pending.filter
            (fun cap => ¬ state.capabilities_granted.contains cap)) }

/-- `capabilities.request_permission`. -/
def request_permission (state : State) (cap : Str) : State × Bool :=
  if state.capabilities_granted.contains cap then (state, false)
  else if state.capabilities_pending.contains cap then (state, false)
  else ({ state with capabilities_pending := state.capabilities_pending ++ [cap] }, true)

/-- `capabilities.grant_permission`: append to `granted` when absent, then
remove from `pending` when present; `changed` reports whether either
branch fired. -/
def grant_permission (state : State) (cap : Str) : State × Bool :=
  if ¬ state.capabilities_granted.contains cap then
    let state1 := { state with capabilities_granted := state.capabilities_granted ++ [cap] }
    if state1.capabilities_pending.contains cap then
      ({ state1 with capabilities_pending := removeValue state1.capabilities_pending cap }, true)
    else (state1, true)
  else
    if state.capabilities_pending.contains cap then
      ({ state with capabilities_pending := removeValue state.capabilities_pending cap }, true)
    else (state, false)

/-- `capabilities.revoke_permission`. -/
def revoke_permission (state : State) (cap : Str) : State × Bool :=
  if ¬ state.capabilities_granted.contains cap then (state, false)
  else ({ state with capabilities_granted := removeValue state.capabilities_granted cap }, true)

/-- `capabilities.clear_pending`. -/
def clear_pending (state : State) : State × Bool :=
  if state.capabilities_pending = [] then (state, false)
  else ({ state with capabilities_pending := [] }, true)

/-- Report of `apply_permission_actions`: granted/pending before and after,
applied actions, and ignored actions with reasons. -/
structure ActionReport where
  before_granted : List Str
  before_pending : List Str
  after_granted : List Str
  after_pending : List Str
  applied : List Str
  ignored : List (Str × Str)

/-- The action loop of `apply_permission_actions`. -/
def applyActionsLoop : State → List Str → List Str → List (Str × Str) →
    State × List Str × List (Str × Str)
  | state, [], applied, ignored => (state, applied, ignored)
  | state, action :: rest, applied, ignored =>
    if requestPrefixStr.isPrefixOf action then
      if action.drop requestPrefixStr.length = [] then
        applyActionsLoop state rest applied (ignored ++ [(action, litS "empty_capability")])
      else
        applyActionsLoop (request_permission state (action.drop requestPrefixStr.length)).1
          rest
          (if (request_permission state (action.drop requestPrefixStr.length)).2
           then applied ++ [action] else applied) ignored
    else if grantPrefixStr.isPrefixOf action then
      if action.drop grantPrefixStr.length = [] then
        applyActionsLoop state rest applied (ignored ++ [(action, litS "empty_capability")])
      else
        applyActionsLoop (grant_permission state (action.drop grantPrefixStr.length)).1
          rest
          (if (grant_permission state (action.drop grantPrefixStr.length)).2
           then applied ++ [action] else applied) ignored
    else
      applyActionsLoop state rest applied (ignored ++ [(action, litS "unknown_action")])

/-- `capabilities.apply_permission_actions`. -/
def apply_permission_actions (state : State) (actions : List Str) : State × ActionReport :=
  let (state1, applied, ignored) := applyActionsLoop state actions [] []
  let state2 := normalize_capabilities state1
  (state2,
   { before_granted := state.capabilities_granted,
     before_pending := state.capabilities_pending,
     after_granted := state2.capabilities_granted,
     after_pending := state2.capabilities_pending,
     applied := applied, ignored := ignored })

/-! ## `spectator/runtime/pipeline.py` -/

/-- `pipeline._extend_unique`. -/
def extendUnique (target : List Str) (values : List Str) : List Str :=
  values.foldl (fun acc value => if value ∈ acc then acc else acc ++ [value]) target

/-- `pipeline._apply_notes_patch`.  Guards mirror Python truthiness: empty
lists skip their branch, and only `set_episode_summary is not None`
assigns the summary. -/
def apply_notes_patch (state : State) (patch : NotesPatch) : State :=
  let s1 := if patch.set_goals ≠ [] then { state with goals := patch.set_goals } else state
  let s2 := if patch.add_open_loops ≠ [] then
      { s1 with open_loops := extendUnique s1.open_loops patch.add_open_loops } else s1
  let s3 := if patch.close_open_loops ≠ [] then
      { s2 with open_loops :=
        (s2.open_loops.filter (fun loop => ¬ patch.close_open_loops.contains loop)) } else s2
  let s4 := if patch.add_decisions ≠ [] then
      { s3 with decisions := extendUnique s3.decisions patch.add_decisions } else s3
  let s5 := if patch.add_constraints ≠ [] then
      { s4 with constraints := extendUnique s4.constraints patch.add_constraints } else s4
  let s6 := match patch.set_episode_summary with
    | some summary => { s5 with episode_summary := summary }
    | none => s5
  if patch.add_memory_tags ≠ [] then
      { s6 with memory_tags := extendUnique s6.memory_tags patch.add_memory_tags } else s6

/-- `ToolResult` dataclass (`tools/results.py`); `output` and `metadata`
are arbitrary JSON values (`None` is `Json.jnull`). -/
structure ToolResult where
  id : Str
  tool : Str
  ok : Bool
  output : Json
  error : Option Str
  metadata : Json := .jnull

/-- `dataclasses.asdict` of a `ToolResult`, field order as declared. -/
def encodeToolResult (r : ToolResult) : Json :=
  .jobj [(litS "id", .jstr r.id),
         (litS "tool", .jstr r.tool),
         (litS "ok", .jbool r.ok),
         (litS "output", r.output),
         (litS "error", match r.error with | some e => .jstr e | none => .jnull),
         (litS "metadata", r.metadata)]

/-- `pipeline._format_tool_results`: one `json.dumps` line per result under
a `TOOL_RESULTS:` banner — and nothing else: no size cap, no truncation. -/
def format_tool_results (results : List ToolResult) : Str :=
  litS "TOOL_RESULTS:\n" ++
    joinStr (litS "\n") (results.map (fun r => jsonDump (encodeToolResult r)))

/-- Outcome of the per-role tail of `run_pipeline` (lines 365–435): the
visible text, the parsed patch, the updated state, and the kinds of the
trace events those lines emit, in order. -/
structure RoleStepResult where
  visible : Str
  patch : Option NotesPatch
  state : State
  events : List Str

/-- The per-role response processing of `run_pipeline` for a run without a
tool executor (`tool_executor=None`): for `governor` with
`max_tool_rounds > 1` the first `extract_tool_calls` pass feeds
`visible_text` through (the executor branch is not taken), then lines
365–435 strip tool calls again, extract notes, sanitize, and — for
**every** role — apply a parsed patch to the state, apply its
permission actions, and condense. -/
def roleFinalResponse (roleName : Str) (response : Str) (maxToolRounds : Int) : Str :=
  if roleName = litS "governor" ∧ maxToolRounds > 1
  then (extract_tool_calls response).1
  else response

/-- Lines 365–366: strip a remaining tool block, then extract the notes. -/
def roleNotes (roleName : Str) (response : Str) (maxToolRounds : Int) :
    Str × Option NotesPatch :=
  extract_notes ((extract_tool_calls (roleFinalResponse roleName response maxToolRounds)).1)

/-- Lines 401–414: apply the patch, apply its permission actions, condense;
also the event kinds (`actions`, `notes_patch`, `condense`) those lines
emit. -/
def applyPatchPipeline (state : State) (patch : NotesPatch) : State × List Str :=
  let s1 := apply_notes_patch state patch
  let actRes := if patch.actions ≠ []
    then ((apply_permission_actions s1 patch.actions).1, [litS "actions"])
    else (s1, [])
  let condensed := condense_state actRes.1 {}
  (condensed.1,
   actRes.2 ++ [litS "notes_patch"] ++
     (if condensed.2.trimmed then [litS "condense"] else []))

def roleStep (roleName : Str) (state : State) (response : Str)
    (maxToolRounds : Int := 2) : RoleStepResult :=
  let notesRes := roleNotes roleName response maxToolRounds
  let sanRes := sanitize_visible_text_with_report notesRes.1
  let sanitizeEvents :=
    (if sanRes.1 ≠ notesRes.1 then [litS "sanitize"] else []) ++
    (if sanRes.2.2 then [litS "sanitize_warning"] else []) ++
    [litS "visible_response"]
  match notesRes.2 with
  | none =>
    { visible := sanRes.1, patch := none, state := state, events := sanitizeEvents }
  | some patch =>
    { visible := sanRes.1, patch := some patch,
      state := (applyPatchPipeline state patch).1,
      events := sanitizeEvents ++ (applyPatchPipeline state patch).2 }

/-! ## `spectator/tools/sandbox.py` — path containment

Paths are lists of components of an absolute POSIX path.  `Path.resolve
(strict=False)` walks the candidate component by component, following
symbolic links and applying `..` to the resolved-so-far path; the
filesystem's links are the parameter `σ` (a symlink maps an absolute
path to an absolute target), with fuel for link chains.  The root is
given already resolved (the code computes `root.resolve()` first). -/

/-- `PurePosixPath(s)` components: split on `/`, dropping empty and `.`
segments. -/
def splitPathComponents (s : Str) : List Str :=
  (s.splitOn '/').filter (fun seg => seg ≠ [] ∧ seg ≠ litS ".")

/-- `Path.resolve(strict=False)` against symlink table `σ`. -/
def resolveAbs (σ : List Str → Option (List Str)) : Nat → List Str → List Str → List Str
  | 0, cur, _ => cur
  | _, cur, [] => cur
  | fuel + 1, cur, comp :: rest =>
    if comp = litS ".." then resolveAbs σ fuel cur.dropLast rest
    else
      match σ (cur ++ [comp]) with
      | some target => resolveAbs σ fuel (resolveAbs σ fuel [] target) rest
      | none => resolveAbs σ fuel (cur ++ [comp]) rest

/-- `sandbox.resolve_under_root`: reject empty and absolute user paths,
resolve `root / user_path`, and require `cand.relative_to(root)` to
succeed — for resolved absolute paths exactly a component-prefix test. -/
def resolve_under_root (σ : List Str → Option (List Str)) (fuel : Nat)
    (rootAbs : List Str) (userPath : Str) : Option (List Str) :=
  if userPath = [] then none
  else if userPath.head? = some '/' then none
  else
    let cand := resolveAbs σ fuel rootAbs (splitPathComponents userPath)
    if rootAbs.isPrefixOf cand then some cand else none

/-- `fs_tools._get_path`: refuse NUL bytes, rewrite the `/sandbox` alias,
then delegate to `resolve_under_root` (`none` models the raised
`ValueError`). -/
def getPath (σ : List Str → Option (List Str)) (fuel : Nat)
    (rootAbs : List Str) (userPath : Str) : Option (List Str) :=
  if containsSub userPath [Char.ofNat 0] then none
  else
    let rewritten :=
      if userPath = litS "/sandbox" then litS "."
      else if (litS "/sandbox/").isPrefixOf userPath
      then userPath.drop (litS "/sandbox/").length
      else userPath
    resolve_under_root σ fuel rootAbs rewritten

/-! ## `spectator/tools/sandbox.py` — shell validation -/

/-- The metacharacter scan of `validate_shell_cmd`: `$`, backtick, newline
and `| & > <` are rejected wherever they occur — the quote state is
tracked but consulted only for `;`. -/
def metaViolation : Option Char → Str → Bool
  | _, [] => false
  | q, c :: rest =>
    if c = '\'' ∨ c = '"' then
      metaViolation (if q = some c then none else if q = none then some c else q) rest
    else if c = '$' ∨ c = Char.ofNat 96 ∨ c = '\n' then true
    else if c = '|' ∨ c = '&' ∨ c = '>' ∨ c = '<' then true
    else if c = ';' ∧ q = none then true
    else metaViolation q rest

/-- `shlex` whitespace. -/
def isShlexWS (c : Char) : Bool :=
  c = ' ' ∨ c = '\t' ∨ c = '\r' ∨ c = '\n'

/-- Lexer modes of POSIX `shlex.split`: plain text, inside single or
double quotes, or after a backslash (outside or inside double quotes). -/
inductive LexMode where
  | norm
  | single
  | double
  | escNorm
  | escDouble

/-- POSIX `shlex.split` as a character-at-a-time state machine; `none`
models the `ValueError` on an unbalanced quote or trailing escape.
`curRev`/`accRev` hold the current token and emitted tokens reversed;
`started` makes quoted empty tokens emit. -/
def shlexGo : LexMode → Str → Str → Bool → List Str → Option (List Str)
  | .norm, [], curRev, started, accRev =>
    some ((if started then curRev.reverse :: accRev else accRev).reverse)
  | .single, [], _, _, _ => none
  | .double, [], _, _, _ => none
  | .escNorm, [], _, _, _ => none
  | .escDouble, [], _, _, _ => none
  | .norm, c :: rest, curRev, started, accRev =>
    if isShlexWS c then
      if started then shlexGo .norm rest [] false (curRev.reverse :: accRev)
      else shlexGo .norm rest [] false accRev
    else if c = '\'' then shlexGo .single rest curRev true accRev
    else if c = '"' then shlexGo .double rest curRev true accRev
    else if c = '\\' then shlexGo .escNorm rest curRev true accRev
    else shlexGo .norm rest (c :: curRev) true accRev
  | .single, c :: rest, curRev, _, accRev =>
    if c = '\'' then shlexGo .norm rest curRev true accRev
    else shlexGo .single rest (c :: curRev) true accRev
  | .double, c :: rest, curRev, _, accRev =>
    if c = '"' then shlexGo .norm rest curRev true accRev
    else if c = '\\' then shlexGo .escDouble rest curRev true accRev
    else shlexGo .double rest (c :: curRev) true accRev
  | .escNorm, c :: rest, curRev, _, accRev =>
    shlexGo .norm rest (c :: curRev) true accRev
  | .escDouble, c :: rest, curRev, _, accRev =>
    if c = '\\' ∨ c = '"' then shlexGo .double rest (c :: curRev) true accRev
    else shlexGo .double rest (c :: '\\' :: curRev) true accRev

/-- `shlex.split(s)` (posix, whitespace split). -/
def shlexSplit (s : Str) : Option (List Str) :=
  shlexGo .norm s [] false []

/-- The deny loops: first an exact (lower-cased) match, then a
starts-with match; returns the matched deny entry.  (Python iterates a
`set`, whose order can only affect the reported string, never whether a
match exists.) -/
def denyExactHit (toks deny : List Str) : Option Str :=
  toks.find? (fun tok => deny.contains tok)

def denyPrefixHit : List Str → List Str → Option Str
  | [], _ => none
  | tok :: rest, deny =>
    match deny.find? (fun bad => bad.isPrefixOf tok) with
    | some bad => some bad
    | none => denyPrefixHit rest deny

/-- `sandbox.validate_shell_cmd` (the `cmd` argument is a string by type;
Python additionally rejects non-strings). -/
def validate_shell_cmd (cmd : Str) (allowed_prefixes deny_substrings : List Str) :
    Bool × Option Str :=
  let s := stripStr cmd
  if s = [] then (false, some (litS "empty command"))
  else if metaViolation none s then
    (false, some (litS "shell metacharacters are not allowed"))
  else
    match shlexSplit s with
    | none => (false, some (litS "failed to parse command"))
    | some [] => (false, some (litS "empty command"))
    | some (first :: restToks) =>
      if ¬ allowed_prefixes.contains first then
        (false, some (litS "command '" ++ first ++ litS "' not allowed"))
      else
        let denySet := deny_substrings.map lowerStr
        let tokenLowers := (first :: restToks).map lowerStr
        match denyExactHit tokenLowers denySet with
        | some tok => (false, some (litS "disallowed token: " ++ tok))
        | none =>
          match denyPrefixHit tokenLowers denySet with
          | some bad => (false, some (litS "disallowed token prefix: " ++ bad))
          | none => (true, none)

/-! ## `spectator/runtime/checkpoints.py`

Save writes `json.dumps(asdict(checkpoint))` to the session file; load
reads the file back through `json.loads` and validates.  Python's
`json` round-trips the document tree exactly, so the store is embedded
at the JSON-document level: save produces the document, load consumes
one.  `updated_ts` (a float wall clock in Python) is an abstract `Int`
tick — the round-trip claim excludes it anyway. -/

/-- `Checkpoint` dataclass. -/
structure Checkpoint where
  session_id : Str
  revision : Int
  updated_ts : Int
  state : State
  recent_messages : List ChatMessage := []
  trace_tail : List Str := []
deriving DecidableEq

def encodeListStr (l : List Str) : Json := .jarr (l.map .jstr)

/-- `asdict(state)`. -/
def encodeState (s : State) : Json :=
  .jobj [(litS "goals", encodeListStr s.goals),
         (litS "open_loops", encodeListStr s.open_loops),
         (litS "decisions", encodeListStr s.decisions),
         (litS "constraints", encodeListStr s.constraints),
         (litS "episode_summary", .jstr s.episode_summary),
         (litS "memory_tags", encodeListStr s.memory_tags),
         (litS "memory_refs", encodeListStr s.memory_refs),
         (litS "capabilities_granted", encodeListStr s.capabilities_granted),
         (litS "capabilities_pending", encodeListStr s.capabilities_pending)]

/-- `asdict(checkpoint)`. -/
def encodeCheckpoint (c : Checkpoint) : Json :=
  .jobj [(litS "session_id", .jstr c.session_id),
         (litS "revision", .jnum c.revision),
         (litS "updated_ts", .jnum c.updated_ts),
         (litS "state", encodeState c.state),
         (litS "recent_messages",
          .jarr (c.recent_messages.map (fun m =>
            .jobj [(litS "role", .jstr m.role), (litS "content", .jstr m.content)]))),
         (litS "trace_tail", encodeListStr c.trace_tail)]

/-- `checkpoints.save_checkpoint`: bump `revision`, stamp `updated_ts` with
the wall clock, and atomically write the serialized payload; returns the
mutated checkpoint and the document written. -/
def save_checkpoint (c : Checkpoint) (now : Int) : Checkpoint × Json :=
  let c' := { c with revision := c.revision + 1, updated_ts := now }
  (c', encodeCheckpoint c')

/-- `checkpoints._ensure_list_of_str` (`none` models the `ValueError`). -/
def ensureListOfStr : Option Json → Option (List Str)
  | none => some []
  | some .jnull => some []
  | some (.jarr xs) => strsOfJ xs
  | some _ => none

/-- `checkpoints._ensure_str`: absent and `null` coerce to `""`. -/
def ensureStrField : Option Json → Option Str
  | none => some []
  | some .jnull => some []
  | some (.jstr s) => some s
  | some _ => none

/-- `checkpoints._coerce_state`. -/
def coerceStateJ : Option Json → Option State
  | some (.jobj fields) =>
    match ensureListOfStr (dictGet fields (litS "goals")),
          ensureListOfStr (dictGet fields (litS "open_loops")),
          ensureListOfStr (dictGet fields (litS "decisions")),
          ensureListOfStr (dictGet fields (litS "constraints")),
          ensureStrField (dictGet fields (litS "episode_summary")),
          ensureListOfStr (dictGet fields (litS "memory_tags")),
          ensureListOfStr (dictGet fields (litS "memory_refs")) with
    | some goals, some openLoops, some decisions, some constraints,
      some summary, some memoryTags, some memoryRefs =>
      match ensureListOfStr (dictGet fields (litS "capabilities_granted")),
            ensureListOfStr (dictGet fields (litS "capabilities_pending")) with
      | some granted, some pending =>
        some { goals := goals, open_loops := openLoops, decisions := decisions,
               constraints := constraints, episode_summary := summary,
               memory_tags := memoryTags, memory_refs := memoryRefs,
               capabilities_granted := granted, capabilities_pending := pending }
      | _, _ => none
    | _, _, _, _, _, _, _ => none
  | _ => none

/-- Item loop of `_coerce_recent_messages`. -/
def coerceMessageItems : List Json → Option (List ChatMessage)
  | [] => some []
  | .jobj item :: rest =>
    match dictGet item (litS "role"), dictGet item (litS "content") with
    | some (.jstr role), some (.jstr content) =>
      match coerceMessageItems rest with
      | some tail => some ({ role := role, content := content } :: tail)
      | none => none
    | _, _ => none
  | _ :: _ => none

/-- `checkpoints._coerce_recent_messages`. -/
def coerceRecentMessages : Option Json → Option (List ChatMessage)
  | none => some []
  | some .jnull => some []
  | some (.jarr items) => coerceMessageItems items
  | some _ => none

/-- `checkpoints._coerce_trace_tail`. -/
def coerceTraceTail : Option Json → Option (List Str)
  | none => some []
  | some .jnull => some []
  | some (.jarr xs) => strsOfJ xs
  | some _ => none

/-- `isinstance(v, int)` for a decoded JSON value: Python `bool` is a
subtype of `int`. -/
def intOfJ : Option Json → Option Int
  | some (.jnum n) => some n
  | some (.jbool b) => some (if b then 1 else 0)
  | _ => none

/-- `checkpoints.load_latest` applied to the document read from the file
(the existence check and `json.loads` already done; `none` models the
raised `ValueError`). -/
def load_latest (payload : Json) : Option Checkpoint :=
  match payload with
  | .jobj fields =>
    match dictGet fields (litS "session_id") with
    | some (.jstr sessionId) =>
      match intOfJ (dictGet fields (litS "revision")) with
      | some revision =>
        match intOfJ (dictGet fields (litS "updated_ts")) with
        | some updatedTs =>
          match coerceStateJ (dictGet fields (litS "state")),
                coerceRecentMessages (dictGet fields (litS "recent_messages")),
                coerceTraceTail (dictGet fields (litS "trace_tail")) with
          | some state, some messages, some traceTail =>
            some { session_id := sessionId, revision := revision,
                   updated_ts := updatedTs, state := state,
                   recent_messages := messages, trace_tail := traceTail }
          | _, _, _ => none
        | none => none
      | none => none
    | _ => none
  | _ => none

/-! ## Theorems -/

/-- The capability invariant: `granted ∩ pending = ∅`. -/
def capDisjoint (s : State) : Prop :=
  ∀ c, c ∈ s.capabilities_granted → c ∉ s.capabilities_pending

lemma cap_inv_request (s : State) (cap : Str) (h : capDisjoint s) :
    capDisjoint (request_permission s cap).1 := by
  unfold request_permission
  split
  · exact h
  · split
    · exact h
    · next hg _ =>
      intro c hc
      simp only [List.mem_append, List.mem_singleton, not_or]
      refine ⟨h c hc, ?_⟩
      rintro rfl
      exact hg (by simpa [List.elem_iff] using hc)

lemma not_mem_of_contains_false {l : List Str} {a : Str}
    (h : l.contains a = false) : a ∉ l := by
  intro hmem
  simp only [List.elem_eq_true_of_mem hmem] at h
  cases h

lemma cap_inv_grant (s : State) (cap : Str) (h : capDisjoint s) :
    capDisjoint (grant_permission s cap).1 := by
  cases hg : s.capabilities_granted.contains cap with
  | true =>
    cases hp : s.capabilities_pending.contains cap with
    | true =>
      simp only [grant_permission, hg, hp, not_true_eq_false, if_false, if_true]
      intro c hc hmem
      simp only [removeValue, List.mem_filter, decide_eq_true_eq] at hmem
      exact absurd hmem.1 (h c hc)
    | false =>
      simpa only [grant_permission, hg, hp, not_true_eq_false, if_false,
        Bool.false_eq_true] using h
  | false =>
    cases hp : s.capabilities_pending.contains cap with
    | true =>
      simp only [grant_permission, hg, hp, Bool.false_eq_true, not_false_eq_true,
        if_true]
      intro c hc hmem
      simp only [removeValue, List.mem_filter, decide_eq_true_eq] at hmem
      rcases List.mem_append.mp hc with hc' | hc'
      · exact absurd hmem.1 (h c hc')
      · exact hmem.2 (by simpa using hc')
    | false =>
      simp only [grant_permission, hg, hp, Bool.false_eq_true, not_false_eq_true,
        if_true]
      intro c hc hmem
      rcases List.mem_append.mp hc with hc' | hc'
      · exact absurd hmem (h c hc')
      · have : c = cap := by simpa using hc'
        subst this
        exact absurd hmem (not_mem_of_contains_false hp)

lemma cap_inv_revoke (s : State) (cap : Str) (h : capDisjoint s) :
    capDisjoint (revoke_permission s cap).1 := by
  unfold revoke_permission
  split
  · exact h
  · intro c hc
    simp only [removeValue, List.mem_filter, decide_eq_true_eq] at hc
    exact h c hc.1

lemma cap_inv_clear (s : State) (h : capDisjoint s) :
    capDisjoint (clear_pending s).1 := by
  unfold clear_pending
  split
  · exact h
  · intro c _ hmem
    exact absurd hmem (List.not_mem_nil c)

/-- `normalize_capabilities` establishes the invariant unconditionally. -/
lemma cap_inv_normalize (s : State) : capDisjoint (normalize_capabilities s) := by
  unfold normalize_capabilities
  split
  · next hempty =>
    intro c hc
    rw [hempty] at hc
    exact absurd hc (List.not_mem_nil c)
  · intro c hc hmem
    simp only [List.mem_filter, decide_eq_true_eq] at hmem
    exact hmem.2 (by simpa [List.elem_iff] using hc)

lemma cap_inv_loop (actions : List Str) (s : State) (applied : List Str)
    (ignored : List (Str × Str)) (h : capDisjoint s) :
    capDisjoint (applyActionsLoop s actions applied ignored).1 := by
  induction actions generalizing s applied ignored with
  | nil => simpa [applyActionsLoop] using h
  | cons action rest ih =>
    unfold applyActionsLoop
    split
    · split
      · exact ih _ _ _ h
      · exact ih _ _ _ (cap_inv_request _ _ h)
    · split
      · split
        · exact ih _ _ _ h
        · exact ih _ _ _ (cap_inv_grant _ _ h)
      · exact ih _ _ _ h

lemma cap_inv_apply_perm (s : State) (actions : List Str) :
    capDisjoint (apply_permission_actions s actions).1 := by
  unfold apply_permission_actions
  exact cap_inv_normalize _

/-- C7: every capability operation — `request_permission`,
`grant_permission`, `revoke_permission`, `clear_pending`,
`apply_permission_actions` — leaves `granted ∩ pending = ∅` on exit
whenever it held on entry (`apply_permission_actions` even
re-establishes it unconditionally via `normalize_capabilities`). -/
theorem capability_ops_preserve_disjointness (s : State) (cap : Str)
    (actions : List Str) (h : capDisjoint s) :
    capDisjoint (request_permission s cap).1 ∧
    capDisjoint (grant_permission s cap).1 ∧
    capDisjoint (revoke_permission s cap).1 ∧
    capDisjoint (clear_pending s).1 ∧
    capDisjoint (apply_permission_actions s actions).1 :=
  ⟨cap_inv_request s cap h, cap_inv_grant s cap h, cap_inv_revoke s cap h,
   cap_inv_clear s h, cap_inv_apply_perm s actions⟩

/-- A concrete state with one granted and one pending capability. -/
def capWitnessState : State :=
  { capabilities_granted := [litS "net"],
    capabilities_pending := [litS "net:example.com"] }

/-- Witness for C7 at a concrete state and action list. -/
theorem capability_ops_preserve_disjointness_witness :
    capDisjoint capWitnessState ∧
    capDisjoint (request_permission capWitnessState (litS "fs")).1 :=
  have hinv : capDisjoint capWitnessState := by
    intro c hc
    simp only [capWitnessState, List.mem_singleton] at hc
    subst hc
    decide
  ⟨hinv,
   (capability_ops_preserve_disjointness capWitnessState (litS "fs")
      [litS "grant_permission:net"] hinv).1⟩

lemma dedupe_aux_nodup (l : List Str) (acc : List Str) (hacc : acc.Nodup) :
    (l.foldl (fun acc item => if item ∈ acc then acc else acc ++ [item]) acc).Nodup := by
  induction l generalizing acc with
  | nil => simpa using hacc
  | cons x xs ih =>
    simp only [List.foldl_cons]
    by_cases hx : x ∈ acc
    · simpa [hx] using ih acc hacc
    · have hacc' : (acc ++ [x]).Nodup := by
        simp [List.nodup_append, hacc, hx]
      simpa [hx] using ih _ hacc'

lemma dedupe_nodup (l : List Str) : (dedupe_preserve_order l).Nodup :=
  dedupe_aux_nodup l [] (by simp)

lemma cap_tail_sublist (l : List Str) (n : Int) : List.Sublist (cap_tail l n) l := by
  unfold cap_tail
  split
  · exact List.nil_sublist l
  · split
    · exact List.Sublist.refl l
    · split
      · exact List.nil_sublist l
      · exact List.drop_sublist _ l

lemma cap_tail_nodup (l : List Str) (n : Int) (h : l.Nodup) : (cap_tail l n).Nodup :=
  h.sublist (cap_tail_sublist l n)

lemma cap_tail_length_le (l : List Str) (n : Int) (hn : 0 ≤ n) :
    ((cap_tail l n).length : Int) ≤ n := by
  unfold cap_tail
  split
  · simpa using hn
  · split
    · next hle => simpa using hle
    · split
      · simpa using hn
      · next hlt h0 =>
        simp only [List.length_drop]
        omega

lemma condenseList_nodup (l : List Str) (n : Int) : (condenseList l n).Nodup :=
  cap_tail_nodup _ n (dedupe_nodup l)

lemma condenseList_length_le (l : List Str) (n : Int) (hn : 0 ≤ n) :
    ((condenseList l n).length : Int) ≤ n :=
  cap_tail_length_le _ n hn

lemma apply_notes_patch_memory_refs (s : State) (p : NotesPatch) :
    (apply_notes_patch s p).memory_refs = s.memory_refs := by
  unfold apply_notes_patch
  repeat' split
  all_goals rfl

lemma request_permission_memory_refs (s : State) (cap : Str) :
    (request_permission s cap).1.memory_refs = s.memory_refs := by
  unfold request_permission
  repeat' split
  all_goals rfl

lemma grant_permission_memory_refs (s : State) (cap : Str) :
    (grant_permission s cap).1.memory_refs = s.memory_refs := by
  simp only [grant_permission]
  repeat' split
  all_goals rfl

lemma normalize_capabilities_memory_refs (s : State) :
    (normalize_capabilities s).memory_refs = s.memory_refs := by
  unfold normalize_capabilities
  split
  all_goals rfl

lemma actions_loop_memory_refs (actions : List Str) (s : State) (applied : List Str)
    (ignored : List (Str × Str)) :
    (applyActionsLoop s actions applied ignored).1.memory_refs = s.memory_refs := by
  induction actions generalizing s applied ignored with
  | nil => rfl
  | cons action rest ih =>
    unfold applyActionsLoop
    split
    · split
      · exact ih _ _ _
      · rw [ih, request_permission_memory_refs]
    · split
      · split
        · exact ih _ _ _
        · rw [ih, grant_permission_memory_refs]
      · exact ih _ _ _

lemma apply_permission_actions_memory_refs (s : State) (actions : List Str) :
    (apply_permission_actions s actions).1.memory_refs = s.memory_refs := by
  unfold apply_permission_actions
  rw [normalize_capabilities_memory_refs, actions_loop_memory_refs]

lemma condense_state_memory_refs (s : State) (pol : CondensePolicy) :
    (condense_state s pol).1.memory_refs = s.memory_refs := rfl

/-- C8: whenever the pipeline's per-role tail parses a notes patch, the
state it leaves behind — patch application, permission actions, then
`condense_state` with the default policy — has every capped list field
(`goals`, `open_loops`, `decisions`, `constraints`, `memory_tags`) of
length at most 32 and free of duplicates, and `memory_refs` is carried
over unchanged (so it stays duplicate-free whenever it was). -/
theorem state_bounded_after_notes_patch (roleName : Str) (s : State) (response : Str)
    (hpatch : (roleStep roleName s response).patch.isSome = true) :
    ((roleStep roleName s response).state.goals.length ≤ 32 ∧
      (roleStep roleName s response).state.goals.Nodup) ∧
    ((roleStep roleName s response).state.open_loops.length ≤ 32 ∧
      (roleStep roleName s response).state.open_loops.Nodup) ∧
    ((roleStep roleName s response).state.decisions.length ≤ 32 ∧
      (roleStep roleName s response).state.decisions.Nodup) ∧
    ((roleStep roleName s response).state.constraints.length ≤ 32 ∧
      (roleStep roleName s response).state.constraints.Nodup) ∧
    ((roleStep roleName s response).state.memory_tags.length ≤ 32 ∧
      (roleStep roleName s response).state.memory_tags.Nodup) ∧
    (roleStep roleName s response).state.memory_refs = s.memory_refs ∧
    (s.memory_refs.Nodup → (roleStep roleName s response).state.memory_refs.Nodup) := by
  have hrefs : ∀ patch : NotesPatch,
      (applyPatchPipeline s patch).1.memory_refs = s.memory_refs := by
    intro patch
    unfold applyPatchPipeline
    split
    · rw [condense_state_memory_refs, apply_permission_actions_memory_refs,
        apply_notes_patch_memory_refs]
    · rw [condense_state_memory_refs, apply_notes_patch_memory_refs]
  have hbounds : ∀ patch : NotesPatch,
      (applyPatchPipeline s patch).1.goals.length ≤ 32 ∧
      (applyPatchPipeline s patch).1.goals.Nodup ∧
      (applyPatchPipeline s patch).1.open_loops.length ≤ 32 ∧
      (applyPatchPipeline s patch).1.open_loops.Nodup ∧
      (applyPatchPipeline s patch).1.decisions.length ≤ 32 ∧
      (applyPatchPipeline s patch).1.decisions.Nodup ∧
      (applyPatchPipeline s patch).1.constraints.length ≤ 32 ∧
      (applyPatchPipeline s patch).1.constraints.Nodup ∧
      (applyPatchPipeline s patch).1.memory_tags.length ≤ 32 ∧
      (applyPatchPipeline s patch).1.memory_tags.Nodup := by
    intro patch
    have hlen : ∀ l : List Str, (condenseList l 32).length ≤ 32 := by
      intro l
      have := condenseList_length_le l 32 (by omega)
      omega
    dsimp only [applyPatchPipeline, condense_state]
    exact ⟨hlen _, condenseList_nodup _ _, hlen _, condenseList_nodup _ _,
      hlen _, condenseList_nodup _ _, hlen _, condenseList_nodup _ _,
      hlen _, condenseList_nodup _ _⟩
  unfold roleStep at hpatch ⊢
  dsimp only at hpatch ⊢
  rcases hn : (roleNotes roleName response 2).2 with _ | patch
  · rw [hn] at hpatch
    simp at hpatch
  · simp only [hn]
    obtain ⟨h1, h2, h3, h4, h5, h6, h7, h8, h9, h10⟩ := hbounds patch
    refine ⟨⟨h1, h2⟩, ⟨h3, h4⟩, ⟨h5, h6⟩, ⟨h7, h8⟩, ⟨h9, h10⟩, hrefs patch, ?_⟩
    intro hnd
    rw [hrefs patch]
    exact hnd

/-- A governor response carrying a notes patch (used as the C8 witness). -/
def c8Response : Str :=
  litS "Hi\n<<<NOTES_JSON>>>\n\x7b\"set_goals\":[\"g\"]\x7d\n<<<END_NOTES_JSON>>>\n"

/-- Witness for C8: a concrete governor turn whose notes patch parses. -/
theorem state_bounded_after_notes_patch_witness :
    (roleStep (litS "governor") {} c8Response).patch.isSome = true ∧
    (roleStep (litS "governor") {} c8Response).state.goals.length ≤ 32 :=
  ⟨by decide,
   (state_bounded_after_notes_patch (litS "governor") {} c8Response (by decide)).1.1⟩

/-- The pre-state and reflection response of the repository's own test
`test_pipeline_ignores_notes_from_non_governor`. -/
def reflectionPreState : State := { open_loops := [litS "loop-1"] }

def reflectionResponse : Str :=
  litS "Draft.\n<<<NOTES_JSON>>>\n\x7b\"set_goals\":[\"ship\"],\"add_open_loops\":[\"loop-2\"],\"close_open_loops\":[\"loop-1\"],\"add_constraints\":[\"constraint\"],\"set_episode_summary\":\"summary\"\x7d\n<<<END_NOTES_JSON>>>\n"

/-- C1: the pipeline's per-role tail applies a notes patch from the
non-governor `reflection` role to the checkpoint state — the goals,
open loops, constraints and episode summary all change and a
`notes_patch` event is emitted, while no `notes_ignored` event exists
anywhere in the code.  The repository's own test
`test_pipeline_ignores_notes_from_non_governor` requires the opposite
(state unchanged, `notes_ignored` in the trace). -/
theorem reflection_notes_patch_is_applied :
    (roleStep (litS "reflection") reflectionPreState reflectionResponse).state.goals
      = [litS "ship"] ∧
    (roleStep (litS "reflection") reflectionPreState reflectionResponse).state.open_loops
      = [litS "loop-2"] ∧
    (roleStep (litS "reflection") reflectionPreState reflectionResponse).state.episode_summary
      = litS "summary" ∧
    (litS "notes_patch")
      ∈ (roleStep (litS "reflection") reflectionPreState reflectionResponse).events ∧
    (litS "notes_ignored")
      ∉ (roleStep (litS "reflection") reflectionPreState reflectionResponse).events := by
  decide

/-- A raw governor output on which stripping the dangling
`<<<TOOL_CALLS_JSON>>>` marker tokens splices the surrounding fragments
into a fresh marker: two marker fragments, a whole marker, and two
closing fragments. -/
def markerRegenResponse : Str :=
  litS "<<<TOOL_CALLS_JSON<<<TOOL_CALLS_JSON<<<TOOL_CALLS_JSON>>>>>>>>>"

/-- C2: the final visible text of the pipeline (extract_tool_calls, then
extract_notes, then sanitize_visible_text_with_report) is not always
free of the `<<<TOOL_CALLS_JSON>>>` marker: on `markerRegenResponse`
the sanitizer's single-pass `str.replace` splices the fragments into
exactly the marker, which is returned to the user. -/
theorem visible_text_can_be_the_tool_marker :
    (roleStep (litS "governor") {} markerRegenResponse).visible = toolsStartMarker ∧
    containsSub (roleStep (litS "governor") {} markerRegenResponse).visible
      toolsStartMarker = true := by
  decide

lemma strsOfJ_map (l : List Str) : strsOfJ (l.map Json.jstr) = some l := by
  induction l with
  | nil => rfl
  | cons x xs ih => simp [strsOfJ, ih]

lemma ensureListOfStr_encode (l : List Str) :
    ensureListOfStr (some (encodeListStr l)) = some l := by
  simp [ensureListOfStr, encodeListStr, strsOfJ_map]

lemma coerceMessageItems_encode (ms : List ChatMessage) :
    coerceMessageItems (ms.map (fun m =>
      Json.jobj [(litS "role", .jstr m.role), (litS "content", .jstr m.content)])) = some ms := by
  induction ms with
  | nil => rfl
  | cons m rest ih =>
    simp only [List.map_cons, coerceMessageItems, ih]
    rfl

lemma coerceStateJ_encode (s : State) :
    coerceStateJ (some (encodeState s)) = some s := by
  simp only [coerceStateJ, encodeState, dictGet]
  simp only [List.reverse_cons, List.reverse_nil, List.nil_append, List.cons_append,
    List.find?]
  simp +decide [ensureListOfStr_encode, ensureListOfStr, encodeListStr, strsOfJ_map,
    ensureStrField]

/-- C9: reloading a saved checkpoint reproduces it exactly, apart from the
`revision` bump and the fresh `updated_ts` that `save_checkpoint` itself
performs: `session_id`, `state`, `recent_messages` and `trace_tail`
survive the round trip unchanged. -/
theorem checkpoint_roundtrip (c : Checkpoint) (now : Int) :
    load_latest (save_checkpoint c now).2 =
      some { c with revision := c.revision + 1, updated_ts := now } := by
  simp only [save_checkpoint, load_latest, encodeCheckpoint, dictGet]
  simp only [List.reverse_cons, List.reverse_nil, List.nil_append, List.cons_append,
    List.find?]
  simp +decide [intOfJ, coerceStateJ_encode, coerceRecentMessages, coerceMessageItems_encode,
    coerceTraceTail, encodeListStr, strsOfJ_map]

/-- Witness for C9 (hypothesis-free instantiation at a concrete checkpoint
is still provided for the audit): a two-message checkpoint survives. -/
theorem checkpoint_roundtrip_witness :
    load_latest (save_checkpoint
      { session_id := litS "s-1", revision := 0, updated_ts := 0,
        state := { goals := [litS "g"] },
        recent_messages := [{ role := litS "user", content := litS "Hello" }],
        trace_tail := [litS "t.jsonl"] } 7).2 =
      some { session_id := litS "s-1", revision := 1, updated_ts := 7,
             state := { goals := [litS "g"] },
             recent_messages := [{ role := litS "user", content := litS "Hello" }],
             trace_tail := [litS "t.jsonl"] } :=
  checkpoint_roundtrip _ 7

/-- The `fs.read_text` result of the repository test
`test_tool_results_truncate_large_payloads_and_trace`, reading a file of
`n` characters `a`. -/
def bigToolResult (n : Nat) : ToolResult :=
  { id := litS "t1", tool := litS "fs.read_text", ok := true,
    output := Json.jobj [(litS "path", Json.jstr (litS "large.txt")),
                         (litS "text", Json.jstr (List.replicate n 'a'))],
    error := none }

lemma esc_foldr_replicate (n : Nat) :
    (List.replicate n 'a').foldr (fun c acc => escChar c ++ acc) ['"'] =
      List.replicate n 'a' ++ ['"'] := by
  induction n with
  | zero => rfl
  | succ n ih =>
    rw [List.replicate_succ, List.foldr_cons, ih]
    rfl

lemma dumpJStr_replicate (n : Nat) :
    dumpJStr (List.replicate n 'a') = '"' :: (List.replicate n 'a' ++ ['"']) := by
  unfold dumpJStr
  rw [esc_foldr_replicate]

def bigResultChunkA : Str :=
  litS "TOOL_RESULTS:\n\x7b\"id\": \"t1\", \"tool\": \"fs.read_text\", \"ok\": true, \"output\": \x7b\"path\": \"large.txt\", \"text\": \""

def bigResultChunkB : Str :=
  litS "\"\x7d, \"error\": null, \"metadata\": null\x7d"

lemma format_tool_results_big (n : Nat) :
    format_tool_results [bigToolResult n] =
      bigResultChunkA ++ List.replicate n 'a' ++ bigResultChunkB := by
  simp only [format_tool_results, bigToolResult, encodeToolResult, List.map_cons,
    List.map_nil, joinStr, jsonDump, jsonDumpObj, jsonDumpArr, dumpJStr_replicate]
  simp [bigResultChunkA, bigResultChunkB, litS, dumpJStr, escChar, intToStr, natToStr,
    natToStrAux, List.append_assoc]

lemma findSub_drop_isPrefixOf (pat : Str) :
    ∀ (s : Str) (i : Nat), findSub pat s = some i → pat.isPrefixOf (s.drop i) = true := by
  intro s
  induction s with
  | nil =>
    intro i h
    unfold findSub at h
    split at h
    · next hp =>
      cases h
      simpa using hp
    · cases h
  | cons c rest ih =>
    intro i h
    unfold findSub at h
    split at h
    · next hp =>
      cases h
      simpa using hp
    · revert h
      split
      · next j hj =>
        intro h
        cases h
        simpa using ih j hj
      · intro h
        cases h

lemma mem_of_containsSub (s pat : Str) (h : containsSub s pat = true) :
    ∀ c ∈ pat, c ∈ s := by
  intro c hc
  unfold containsSub at h
  cases hfind : findSub pat s with
  | none => rw [hfind] at h; cases h
  | some i =>
    have hpre := findSub_drop_isPrefixOf pat s i hfind
    have : pat <+: s.drop i := List.isPrefixOf_iff_prefix.mp hpre
    exact List.drop_subset i s (this.subset hc)

/-- C3: `_format_tool_results` performs no truncation whatsoever — for the
repository test's own input (an `fs.read_text` result of 21 000
characters) the block handed back to the governor is longer than the
20 000-character cap the specification names, and it contains no
`... <truncated ` marker.  (`TOOL_RESULTS_MAX_CHARS`, which the test
suite imports from `spectator.runtime.pipeline`, does not exist there.) -/
theorem tool_results_block_is_never_truncated :
    20000 < (format_tool_results [bigToolResult 21000]).length ∧
    containsSub (format_tool_results [bigToolResult 21000])
      (litS "... <truncated ") = false := by
  constructor
  · rw [format_tool_results_big]
    simp only [List.length_append, List.length_replicate]
    norm_num [bigResultChunkA, bigResultChunkB, litS]
  · by_contra hcontains
    have h : containsSub (format_tool_results [bigToolResult 21000])
        (litS "... <truncated ") = true := by
      revert hcontains
      cases containsSub (format_tool_results [bigToolResult 21000])
          (litS "... <truncated ") <;> simp
    have hlt : '<' ∈ format_tool_results [bigToolResult 21000] :=
      mem_of_containsSub _ _ h '<' (by decide)
    rw [format_tool_results_big] at hlt
    simp only [List.mem_append, List.mem_replicate] at hlt
    rcases hlt with (hlt | hlt) | hlt
    · revert hlt
      decide
    · exact absurd hlt.2 (by decide)
    · revert hlt
      decide

/-- A notes block whose known field `set_episode_summary` carries a number
instead of a string. -/
def mistypedSummaryText : Str :=
  litS "A\n<<<NOTES_JSON>>>\n\x7b\"set_episode_summary\": 42\x7d\n<<<END_NOTES_JSON>>>\nB"

/-- C6 counterexample: a type mismatch in the known field
`set_episode_summary` does **not** reject the patch — `extract_notes`
strips the block and returns a patch with the summary silently dropped,
instead of returning the input unchanged with a null patch. -/
theorem extract_notes_accepts_mistyped_summary :
    (extract_notes mistypedSummaryText).2 = some {} ∧
    (extract_notes mistypedSummaryText).1 = litS "A\n\nB" ∧
    (extract_notes mistypedSummaryText).1 ≠ mistypedSummaryText := by
  decide

lemma coercePatch_none_iff (data : List (Str × Json)) :
    coercePatch data = none ↔
      (ensureListJ (dictGet data (litS "set_goals")) = none ∨
       ensureListJ (dictGet data (litS "add_open_loops")) = none ∨
       ensureListJ (dictGet data (litS "close_open_loops")) = none ∨
       ensureListJ (dictGet data (litS "add_decisions")) = none ∨
       ensureListJ (dictGet data (litS "add_constraints")) = none ∨
       ensureListJ (dictGet data (litS "add_memory_tags")) = none ∨
       ensureListJ (dictGet data (litS "actions")) = none) := by
  unfold coercePatch
  rcases ensureListJ (dictGet data (litS "set_goals")) with _ | sg <;>
    rcases ensureListJ (dictGet data (litS "add_open_loops")) with _ | aol <;>
      rcases ensureListJ (dictGet data (litS "close_open_loops")) with _ | col <;>
        rcases ensureListJ (dictGet data (litS "add_decisions")) with _ | ad <;>
          rcases ensureListJ (dictGet data (litS "add_constraints")) with _ | ac <;>
            rcases ensureListJ (dictGet data (litS "add_memory_tags")) with _ | amt <;>
              rcases ensureListJ (dictGet data (litS "actions")) with _ | acts <;>
                simp

/-- C6 amended: with a `<<<NOTES_JSON>>>` block present, the whole patch is
rejected — input text returned unchanged, null patch — exactly when the
payload is malformed (unparsable or not a JSON object) or one of the
known **list** fields mistypes; otherwise the block is removed and the
typed patch returned.  A mistyped `set_episode_summary` does not reject:
it is silently dropped (see the counterexample). -/
theorem extract_notes_rejection_characterization (text : Str) :
    ((extract_notes text).2 = none → (extract_notes text).1 = text) ∧
    (∀ payload si ei,
      extractBlock notesStartMarker notesEndMarker text = some (payload, si, ei) →
      (((extract_notes text).2 = none) ↔
        ((∀ data, jsonLoads payload ≠ some (Json.jobj data)) ∨
         (∃ data, jsonLoads payload = some (Json.jobj data) ∧
           (ensureListJ (dictGet data (litS "set_goals")) = none ∨
            ensureListJ (dictGet data (litS "add_open_loops")) = none ∨
            ensureListJ (dictGet data (litS "close_open_loops")) = none ∨
            ensureListJ (dictGet data (litS "add_decisions")) = none ∨
            ensureListJ (dictGet data (litS "add_constraints")) = none ∨
            ensureListJ (dictGet data (litS "add_memory_tags")) = none ∨
            ensureListJ (dictGet data (litS "actions")) = none))))) ∧
    (∀ payload si ei patch,
      extractBlock notesStartMarker notesEndMarker text = some (payload, si, ei) →
      (extract_notes text).2 = some patch →
      (extract_notes text).1 = text.take si ++ text.drop ei) := by
  refine ⟨?_, ?_, ?_⟩
  · unfold extract_notes
    repeat' split
    all_goals intro hnone
    all_goals first
      | rfl
      | exact absurd hnone (by simp)
  · intro payload si ei hb
    unfold extract_notes
    rw [hb]
    cases hj : jsonLoads payload with
    | none =>
      simp only [hj]
      constructor
      · intro _
        exact Or.inl (fun data hcontra => Option.noConfusion hcontra)
      · intro _
        trivial
    | some j =>
      simp only [hj]
      cases j with
      | jobj data =>
        cases hc : coercePatch data with
        | none =>
          simp only [hc]
          constructor
          · intro _
            right
            exact ⟨data, rfl, (coercePatch_none_iff data).mp hc⟩
          · intro _
            trivial
        | some patch =>
          simp only [hc]
          constructor
          · intro hcontra
            exact absurd hcontra (by simp)
          · rintro (habs | ⟨data', hdata', hmis⟩)
            · exact absurd rfl (habs data)
            · have hdd : data = data' := by
                have h1 := Option.some.inj hdata'
                injection h1
              subst hdd
              have hnone := (coercePatch_none_iff data).mpr hmis
              rw [hnone] at hc
              cases hc
      | jnull =>
        constructor
        · intro _
          exact Or.inl (fun data hcontra => by cases Option.some.inj hcontra)
        · intro _
          trivial
      | jbool b =>
        constructor
        · intro _
          exact Or.inl (fun data hcontra => by cases Option.some.inj hcontra)
        · intro _
          trivial
      | jnum n =>
        constructor
        · intro _
          exact Or.inl (fun data hcontra => by cases Option.some.inj hcontra)
        · intro _
          trivial
      | jstr s =>
        constructor
        · intro _
          exact Or.inl (fun data hcontra => by cases Option.some.inj hcontra)
        · intro _
          trivial
      | jarr xs =>
        constructor
        · intro _
          exact Or.inl (fun data hcontra => by cases Option.some.inj hcontra)
        · intro _
          trivial
  · intro payload si ei patch hb hsome
    unfold extract_notes at hsome ⊢
    rw [hb] at hsome ⊢
    cases hj : jsonLoads payload with
    | none => simp [hj] at hsome
    | some j =>
      cases j with
      | jobj data =>
        cases hc : coercePatch data with
        | none => simp [hj, hc] at hsome
        | some patch' => simp [hj, hc]
      | jnull => simp [hj] at hsome
      | jbool b => simp [hj] at hsome
      | jnum n => simp [hj] at hsome
      | jstr s => simp [hj] at hsome
      | jarr xs => simp [hj] at hsome

/-- Witness for C6's amended theorem: the repository test input with a
well-typed patch — the block parses, nothing mistypes, the block is
removed. -/
theorem extract_notes_rejection_characterization_witness :
    (extract_notes c8Response).2 ≠ none ∧
    (extract_notes c8Response).1 = litS "Hi\n\n" := by
  have h := extract_notes_rejection_characterization c8Response
  have hb : extractBlock notesStartMarker notesEndMarker c8Response =
      some (litS "\x7b\"set_goals\":[\"g\"]\x7d", 3, 60) := by decide
  have hsome : (extract_notes c8Response).2 = some
      { set_goals := [litS "g"] } := by decide
  constructor
  · rw [hsome]
    simp
  · have heq := h.2.2 (litS "\x7b\"set_goals\":[\"g\"]\x7d") 3 60
      { set_goals := [litS "g"] } hb hsome
    rw [heq]
    decide

/-- C10: when no canonical marker block is found and the stripped text
opens with `[` or a brace, `extract_tool_calls` either fails to parse —
original text back, no calls — or runs loose coercion: no valid call
means the original text is returned unchanged with an empty list, and at
least one allowed call means the entire response is consumed (empty
visible text). -/
theorem loose_tool_call_consumption (text : Str)
    (hblock : extractBlock toolsStartMarker toolsEndMarker text = none)
    (hhead : ∃ c rest, stripStr text = c :: rest ∧ (c = '[' ∨ c = '\x7b')) :
    (jsonLoads (stripStr text) = none → extract_tool_calls text = (text, [])) ∧
    (∀ d, jsonLoads (stripStr text) = some d →
      (coerceLooseToolCalls d none defaultAllowedToolNamespaces = [] →
        extract_tool_calls text = (text, [])) ∧
      (∀ call calls,
        coerceLooseToolCalls d none defaultAllowedToolNamespaces = call :: calls →
        extract_tool_calls text = ([], call :: calls))) := by
  obtain ⟨c, rest, hs, hc⟩ := hhead
  constructor
  · intro hj
    unfold extract_tool_calls
    rw [hblock]
    simp only [hs]
    rw [if_neg (not_not_intro hc)]
    rw [← hs, hj]
  · intro d hj
    constructor
    · intro hcoerce
      unfold extract_tool_calls
      rw [hblock]
      simp only [hs]
      rw [if_neg (not_not_intro hc)]
      rw [← hs, hj]
      simp only [hcoerce]
    · intro call calls hcoerce
      unfold extract_tool_calls
      rw [hblock]
      simp only [hs]
      rw [if_neg (not_not_intro hc)]
      rw [← hs, hj]
      simp only [hcoerce]

/-- The bare tool call of scenario 3 and
`test_extract_tool_calls_accepts_bare_name_arguments_string`. -/
def looseCallText : Str :=
  litS "\x7b\"name\":\"fs.list_dir\",\"arguments\":\"\x7b\\\"path\\\":\\\"/sandbox\\\"\x7d\"\x7d"

/-- Witness for C10: the bare `name`/`arguments` call is coerced, the whole
response is consumed, and the call carries the auto-assigned id. -/
theorem loose_tool_call_consumption_witness :
    extract_tool_calls looseCallText =
      ([], [{ id := litS "auto-1", tool := litS "fs.list_dir",
              args := [(litS "path", Json.jstr (litS "/sandbox"))] }]) := by
  have h := loose_tool_call_consumption looseCallText (by decide)
    ⟨'\x7b', looseCallText.drop 1, by decide, Or.inr rfl⟩
  exact (h.2 (Json.jobj [(litS "name", Json.jstr (litS "fs.list_dir")),
      (litS "arguments", Json.jstr (litS "\x7b\"path\":\"/sandbox\"\x7d"))])
    (by rfl)).2 _ [] (by rfl)

/-- C4 counterexample: `resolve_under_root` (and `_get_path` via the
`/sandbox` alias) returns the root directory **itself** — an answer that
is not *strictly* inside the root — for the user paths `.` and
`/sandbox`. -/
theorem resolve_under_root_returns_root_itself :
    resolve_under_root (fun _ => none) 8 [litS "sandbox"] (litS ".") =
      some [litS "sandbox"] ∧
    getPath (fun _ => none) 8 [litS "sandbox"] (litS "/sandbox") =
      some [litS "sandbox"] := by
  decide

/-- C4 amended: for every symlink table, every root and every user path,
`resolve_under_root` returns an absolute path inside the root — possibly
the root itself — or `none`; empty and absolute user paths are always
rejected; and `_get_path` rewrites the `/sandbox` alias (bare and with a
tail) to a root-relative path before the containment check. -/
theorem resolve_under_root_containment (σ : List Str → Option (List Str)) (fuel : Nat)
    (rootAbs : List Str) :
    (∀ userPath p, resolve_under_root σ fuel rootAbs userPath = some p →
      List.IsPrefix rootAbs p) ∧
    (resolve_under_root σ fuel rootAbs [] = none) ∧
    (∀ rest, resolve_under_root σ fuel rootAbs ('/' :: rest) = none) ∧
    (getPath σ fuel rootAbs (litS "/sandbox") =
      resolve_under_root σ fuel rootAbs (litS ".")) ∧
    (∀ tail, containsSub ((litS "/sandbox/") ++ tail) [Char.ofNat 0] = false →
      getPath σ fuel rootAbs ((litS "/sandbox/") ++ tail) =
        resolve_under_root σ fuel rootAbs tail) := by
  refine ⟨?_, ?_, ?_, ?_, ?_⟩
  · intro userPath p h
    unfold resolve_under_root at h
    dsimp only at h
    split at h
    · cases h
    · split at h
      · cases h
      · split at h
        · next hpre =>
          cases h
          exact List.isPrefixOf_iff_prefix.mp hpre
        · cases h
  · rfl
  · intro rest
    simp [resolve_under_root]
  · rfl
  · intro tail hnul
    have hne : ¬ ((litS "/sandbox/") ++ tail = litS "/sandbox") := by
      intro hcontra
      have hlen := congrArg List.length hcontra
      simp only [List.length_append] at hlen
      have h9 : (litS "/sandbox/").length = 9 := by decide
      have h8 : (litS "/sandbox").length = 8 := by decide
      omega
    unfold getPath
    rw [hnul]
    simp only [Bool.false_eq_true, if_false]
    rw [if_neg hne, if_pos (List.isPrefixOf_iff_prefix.mpr ⟨tail, rfl⟩)]
    rw [List.drop_left]

/-- A symlink table with one escaping link `<root>/link → /outside`. -/
def escapingLinks : List Str → Option (List Str) :=
  fun p => if p = [litS "sandbox", litS "link"] then some [litS "outside"] else none

/-- Witness for C4: a relative path resolves inside the root, an absolute
path is rejected, an `..` escape is rejected, and a traversal through
the escaping symlink is rejected. -/
theorem resolve_under_root_containment_witness :
    resolve_under_root (fun _ => none) 8 [litS "sandbox"] (litS "sub/f.txt") =
      some [litS "sandbox", litS "sub", litS "f.txt"] ∧
    List.IsPrefix [litS "sandbox"] [litS "sandbox", litS "sub", litS "f.txt"] ∧
    resolve_under_root (fun _ => none) 8 [litS "sandbox"] (litS "/etc/passwd") = none ∧
    resolve_under_root (fun _ => none) 8 [litS "sandbox"] (litS "../outside") = none ∧
    resolve_under_root escapingLinks 8 [litS "sandbox"] (litS "link/target.txt") = none := by
  refine ⟨by decide, ?_, ?_, by decide, by decide⟩
  · exact (resolve_under_root_containment (fun _ => none) 8 [litS "sandbox"]).1
      (litS "sub/f.txt") _ (by decide)
  · exact (resolve_under_root_containment (fun _ => none) 8 [litS "sandbox"]).2.2.1
      (litS "etc/passwd")

/-- Modelled from the claim's words (not the source): the metacharacter
rule with **every** listed character — `| & > <`, backtick, `$`,
newline, and `;` — counted only when it occurs outside quotes. -/
def metaViolationSpec : Option Char → Str → Bool
  | _, [] => false
  | q, c :: rest =>
    if c = '\'' ∨ c = '"' then
      metaViolationSpec (if q = some c then none else if q = none then some c else q) rest
    else if q = none ∧ (c = '$' ∨ c = Char.ofNat 96 ∨ c = '\n' ∨ c = '|' ∨ c = '&' ∨
        c = '>' ∨ c = '<' ∨ c = ';') then true
    else metaViolationSpec q rest

/-- The claim's rejection condition for `validate_shell_cmd`, with the
quote-aware metacharacter scan the claim describes. -/
def claimRejects (cmd : Str) (allowed_prefixes deny_substrings : List Str) : Bool :=
  (stripStr cmd).isEmpty ||
  metaViolationSpec none (stripStr cmd) ||
  (match shlexSplit (stripStr cmd) with
   | none => true
   | some [] => true
   | some (first :: rest) =>
     !(allowed_prefixes.contains first) ||
     ((first :: rest).map lowerStr).any (fun tok =>
       (deny_substrings.map lowerStr).contains tok ||
       (deny_substrings.map lowerStr).any (fun bad => bad.isPrefixOf tok)))

/-- The rejection condition the code actually implements, identical to
`claimRejects` except that `$`, backtick, newline and `| & > <` are
rejected inside quotes as well (only `;` is quote-aware). -/
def amendedRejects (cmd : Str) (allowed_prefixes deny_substrings : List Str) : Bool :=
  (stripStr cmd).isEmpty ||
  metaViolation none (stripStr cmd) ||
  (match shlexSplit (stripStr cmd) with
   | none => true
   | some [] => true
   | some (first :: rest) =>
     !(allowed_prefixes.contains first) ||
     ((first :: rest).map lowerStr).any (fun tok =>
       (deny_substrings.map lowerStr).contains tok ||
       (deny_substrings.map lowerStr).any (fun bad => bad.isPrefixOf tok)))

/-- C5 counterexample: `echo "a|b"` — the pipe sits inside double quotes,
so the claim's condition does not reject it, yet `validate_shell_cmd`
rejects it (the code consults the quote state only for `;`). -/
theorem validate_shell_cmd_rejects_quoted_pipe :
    (validate_shell_cmd (litS "echo \"a|b\"") [litS "echo"] []).1 = false ∧
    claimRejects (litS "echo \"a|b\"") [litS "echo"] [] = false := by
  decide

lemma denyExactHit_isSome (toks deny : List Str) :
    (denyExactHit toks deny).isSome = toks.any (fun t => deny.contains t) := by
  unfold denyExactHit
  induction toks with
  | nil => rfl
  | cons t rest ih =>
    simp only [List.find?, List.any_cons]
    cases h : deny.contains t
    · simpa [h] using ih
    · simp [h]

lemma denyPrefixHit_isSome (toks deny : List Str) :
    (denyPrefixHit toks deny).isSome =
      toks.any (fun t => deny.any (fun bad => bad.isPrefixOf t)) := by
  induction toks with
  | nil => rfl
  | cons t rest ih =>
    unfold denyPrefixHit
    simp only [List.any_cons]
    cases h : deny.find? (fun bad => bad.isPrefixOf t) with
    | none =>
      have hfalse : deny.any (fun bad => bad.isPrefixOf t) = false := by
        cases hall : deny.any (fun bad => bad.isPrefixOf t)
        · rfl
        · obtain ⟨bad, hbad, hpre⟩ := List.any_eq_true.mp hall
          have hw := List.find?_eq_none.mp h bad hbad
          simp_all
      simp [hfalse, ih]
    | some bad =>
      have htrue : deny.any (fun bad => bad.isPrefixOf t) = true :=
        List.any_eq_true.mpr ⟨bad, List.mem_of_find?_eq_some h,
          by simpa using List.find?_some h⟩
      simp [htrue]

/-- C5 amended: `validate_shell_cmd` accepts exactly when none of the
rejection conditions hold, with the metacharacter rule as the code has
it: `$`, backtick, newline and `| & > <` rejected anywhere in the
command (quoted or not), `;` rejected only outside quotes; then POSIX
tokenization must succeed, the first token must be in
`allowed_prefixes`, and no lower-cased token may equal or start with a
lower-cased deny entry. -/
theorem validate_shell_cmd_characterization (cmd : Str)
    (allowed_prefixes deny_substrings : List Str) :
    (validate_shell_cmd cmd allowed_prefixes deny_substrings).1 =
      ! amendedRejects cmd allowed_prefixes deny_substrings := by
  unfold validate_shell_cmd amendedRejects
  cases hS : stripStr cmd with
  | nil => rfl
  | cons c s =>
    rw [if_neg (by simp)]
    simp only [List.isEmpty_cons, Bool.false_or]
    cases hm : metaViolation none (c :: s)
    · rw [if_neg (by simp [hm])]
      simp only [Bool.false_or]
      cases hsh : shlexSplit (c :: s) with
      | none => rfl
      | some toks =>
        cases toks with
        | nil => rfl
        | cons first rest =>
          simp only []
          cases hA : allowed_prefixes.contains first
          · rw [if_pos (by simp [hA])]
            simp [hA]
          · rw [if_neg (by simp [hA])]
            simp only [hA, Bool.not_true, Bool.false_or]
            cases hE : denyExactHit ((first :: rest).map lowerStr)
                (deny_substrings.map lowerStr) with
            | some tok =>
              have hEa := denyExactHit_isSome ((first :: rest).map lowerStr)
                (deny_substrings.map lowerStr)
              rw [hE] at hEa
              simp only [Option.isSome_some] at hEa
              have hany : (((first :: rest).map lowerStr).any (fun tok =>
                  (deny_substrings.map lowerStr).contains tok ||
                  (deny_substrings.map lowerStr).any
                    (fun bad => bad.isPrefixOf tok))) = true := by
                obtain ⟨t, ht, ht2⟩ := List.any_eq_true.mp hEa.symm
                exact List.any_eq_true.mpr ⟨t, ht, by rw [ht2]; rfl⟩
              rw [hany]
              rfl
            | none =>
              have hEa := denyExactHit_isSome ((first :: rest).map lowerStr)
                (deny_substrings.map lowerStr)
              rw [hE] at hEa
              simp only [Option.isSome_none] at hEa
              cases hP : denyPrefixHit ((first :: rest).map lowerStr)
                  (deny_substrings.map lowerStr) with
              | some bad =>
                have hPa := denyPrefixHit_isSome ((first :: rest).map lowerStr)
                  (deny_substrings.map lowerStr)
                rw [hP] at hPa
                simp only [Option.isSome_some] at hPa
                have hany : (((first :: rest).map lowerStr).any (fun tok =>
                    (deny_substrings.map lowerStr).contains tok ||
                    (deny_substrings.map lowerStr).any
                      (fun bad => bad.isPrefixOf tok))) = true := by
                  obtain ⟨t, ht, ht2⟩ := List.any_eq_true.mp hPa.symm
                  exact List.any_eq_true.mpr ⟨t, ht, by rw [ht2, Bool.or_true]⟩
                rw [hany]
                rfl
              | none =>
                have hPa := denyPrefixHit_isSome ((first :: rest).map lowerStr)
                  (deny_substrings.map lowerStr)
                rw [hP] at hPa
                simp only [Option.isSome_none] at hPa
                have hany : (((first :: rest).map lowerStr).any (fun tok =>
                    (deny_substrings.map lowerStr).contains tok ||
                    (deny_substrings.map lowerStr).any
                      (fun bad => bad.isPrefixOf tok))) = false := by
                  cases hall : (((first :: rest).map lowerStr).any (fun tok =>
                      (deny_substrings.map lowerStr).contains tok ||
                      (deny_substrings.map lowerStr).any
                        (fun bad => bad.isPrefixOf tok)))
                  · rfl
                  · obtain ⟨t, ht, ht2⟩ := List.any_eq_true.mp hall
                    rcases (Bool.or_eq_true _ _).mp ht2 with h' | h'
                    · have hx : (((first :: rest).map lowerStr).any
                          (fun t => (deny_substrings.map lowerStr).contains t))
                          = true := List.any_eq_true.mpr ⟨t, ht, h'⟩
                      rw [hx] at hEa
                      cases hEa
                    · have hx : (((first :: rest).map lowerStr).any (fun t =>
                          (deny_substrings.map lowerStr).any
                            (fun bad => bad.isPrefixOf t))) = true :=
                        List.any_eq_true.mpr ⟨t, ht, h'⟩
                      rw [hx] at hPa
                      cases hPa
                rw [hany]
                rfl
    · rw [if_pos (by simp [hm])]
      simp

end Spectator
